import Mathlib

/-!
Verification of the SRC1 point-of-sale / inventory web application against its
natural-language specification.

The TypeScript sources are shallowly embedded: JavaScript objects and `Map`s
become ordered association lists (JS preserves string-key insertion order),
JS numbers that hold integral quantities become `Int`, money amounts become
`ℚ`, nullable values become `Option`, and every top-level handler becomes a
pure function from its inputs (current user, loaded inventory, form data,
simulated fetch outcome) to an explicit outcome value.
-/

namespace SRC1

/-- Ordered association-list lookup, the embedding of JS `obj[k]` / `Map.get`:
the first entry with the key wins. -/
def alGet {β : Type} [DecidableEq κ] (k : κ) : List (κ × β) → Option β
  | [] => none
  | p :: l => if p.1 = k then some p.2 else alGet k l

/-- Ordered association-list update, the embedding of JS `Map.set` /
`obj[k] = v`: an existing key keeps its position and gets the new value, a new
key is appended at the end. -/
def alSet {β : Type} [DecidableEq κ] (k : κ) (v : β) : List (κ × β) → List (κ × β)
  | [] => [(k, v)]
  | p :: l => if p.1 = k then (k, v) :: l else p :: alSet k v l

/-- Insert `a` into `l` before the first element `b` with `le a b`. -/
def insertSorted (le : α → α → Bool) (a : α) : List α → List α
  | [] => [a]
  | b :: bs => if le a b then a :: b :: bs else b :: insertSorted le a bs

/-- Embedding of JS `Array.prototype.sort` with a consistent comparator: a
stable sort (ECMA-262 requires stability, and for a total preorder the stable
sorted permutation is unique, so any stable sort is the faithful embedding).
Implemented as structurally recursive insertion sort. -/
def sortStable (le : α → α → Bool) (l : List α) : List α :=
  l.foldr (insertSorted le) []

/-- Lexicographic comparison of char lists by code unit. -/
def charListLe : List Char → List Char → Bool
  | [], _ => true
  | _ :: _, [] => false
  | a :: as, b :: bs =>
    if a.val < b.val then true else if b.val < a.val then false else charListLe as bs

/-- Embedding of the JS string comparison used by `Array.prototype.sort()`
without a comparator (and, approximately, by `localeCompare`): lexicographic
by code unit. -/
def strLe (a b : String) : Bool := charListLe a.data b.data

/-- JS whitespace (the characters `String.prototype.trim` strips, restricted
to the ASCII range actually occurring in this application's data). -/
def jsWhitespace (c : Char) : Bool :=
  c.val == 32 || c.val == 9 || c.val == 10 || c.val == 13 || c.val == 12 || c.val == 11

/-- JS `String.prototype.trim`. -/
def strTrim (s : String) : String :=
  ⟨((s.data.dropWhile jsWhitespace).reverse.dropWhile jsWhitespace).reverse⟩

/-- JS `String.prototype.toLowerCase` (ASCII case mapping; the identifiers
and names of this application are compared within ASCII). -/
def strLower (s : String) : String := ⟨s.data.map Char.toLower⟩

/-- Exact rational addition, stated through `mkRat` (definitionally the same
value as `+` on `ℚ`, but evaluable by the kernel). -/
def ratAdd (a b : ℚ) : ℚ := mkRat (a.num * b.den + b.num * a.den) (a.den * b.den)

/-- Exact rational multiplication through `mkRat`. -/
def ratMul (a b : ℚ) : ℚ := mkRat (a.num * b.num) (a.den * b.den)

/-- `Product` from `src/hooks/useInventory.ts`.  Quantities are integral JS
numbers, prices are decimal JS numbers (embedded as `ℚ`), the optional fields
are `Option`s. -/
structure Product where
  id : String
  name : String
  quantity : Int
  barcode : String
  imageUrl : String
  price : ℚ
  brand : String
  description : Option String
  wholesaleQuantityThreshold : Option Int
  wholesalePrice : Option ℚ
  lowStockThreshold : Option Int
deriving Repr, DecidableEq

/-- `InventoryData` from `useInventory.ts`: products of one point of sale
grouped by brand name (a JS object, i.e. an ordered association list). -/
@[reducible] def InventoryData : Type := List (String × List Product)

/-- `Inventory` from `useInventory.ts`: inventory data per point of sale. -/
@[reducible] def Inventory : Type := List (String × InventoryData)

instance : DecidableEq InventoryData := by unfold InventoryData; exact inferInstance

instance : DecidableEq Inventory := by unfold Inventory; exact inferInstance

/-- `User` from `src/context/AuthContext` (`src/unnamed/part_001`), restricted
to the fields the verified handlers read. -/
structure User where
  id : String
  name : String
  allowedPOS : List String
deriving Repr, DecidableEq

/-- `getPointsOfSale` from `useInventory.ts`: the point-of-sale names of the
loaded inventory, sorted (`Object.keys(inventory).sort()`). -/
def getPointsOfSale (inv : Inventory) : List String :=
  sortStable strLe (inv.map Prod.fst)

/-- The product-matching predicate of `getProductDetailsInPos`
(`useInventory.ts` line 122): exact barcode match or case-insensitive name
match. -/
def matchesIdentifier (identifier : String) (p : Product) : Bool :=
  p.barcode == identifier || strLower p.name == strLower identifier

/-- `getProductDetailsInPos` from `useInventory.ts`: `null` when the point of
sale is absent, otherwise the first matching product scanning the brands of
that point of sale in order.  (The `Array.isArray` guard of the source is
vacuous here because brand entries are lists by construction; the source
returns a spread copy `{...product}`, which is the value itself in this
embedding.) -/
def getProductDetailsInPos (inv : Inventory) (pos identifier : String) : Option Product :=
  match alGet pos inv with
  | none => none
  | some brands => brands.findSome? (fun bp => bp.2.find? (matchesIdentifier identifier))

/-- `getProductDetails` from `useInventory.ts`: scan the points of sale in
enumeration order and return the first per-POS match, augmented with the name
of the point of sale it was found in. -/
def getProductDetails (inv : Inventory) (identifier : String) : Option (Product × String) :=
  inv.findSome? (fun pr => (getProductDetailsInPos inv pr.1 identifier).map (fun p => (p, pr.1)))

/-- `getPointsOfSaleForUser` from `src/context/InventoryContext.tsx`: no user
or an empty `allowedPOS` yields no access; a `*` entry yields all points of
sale; otherwise the sorted point-of-sale list filtered by `allowedPOS`. -/
def getPointsOfSaleForUser (u : Option User) (inv : Inventory) : List String :=
  match u with
  | none => []
  | some user =>
    if user.allowedPOS = [] then []
    else if "*" ∈ user.allowedPOS then getPointsOfSale inv
    else (getPointsOfSale inv).filter (fun pos => pos ∈ user.allowedPOS)

/-- `getProductDetailsForUser` from `InventoryContext.tsx`: look the
identifier up only in the points of sale accessible to the current user, in
order.  (The source returns `{...details, pos, brand: details.brand}`; the
`brand` field is already part of the product, so the embedding returns the
product together with the point of sale.) -/
def getProductDetailsForUser (u : Option User) (inv : Inventory) (identifier : String) :
    Option (Product × String) :=
  match u with
  | none => none
  | some user =>
    if user.allowedPOS = [] then none
    else
      let accessiblePOS :=
        if "*" ∈ user.allowedPOS then getPointsOfSale inv else user.allowedPOS
      accessiblePOS.findSome?
        (fun pos => (getProductDetailsInPos inv pos identifier).map (fun p => (p, pos)))

/-- All products of one point of sale flattened in brand order (used to state
the first-match specification of the lookup functions). -/
def posProductsFlat (inv : Inventory) (pos : String) : List Product :=
  ((alGet pos inv).getD []).flatMap Prod.snd

/-- Specification wording of C7 for `getProductDetailsInPos`: the first
product of the point of sale (scanning brands in order, products in order)
whose barcode equals the identifier or whose name equals it
case-insensitively; `none` when the point of sale is absent or nothing
matches. -/
def specFirstMatchInPos (inv : Inventory) (pos identifier : String) : Option Product :=
  (posProductsFlat inv pos).find? (matchesIdentifier identifier)

/-- Specification wording of C7 for `getProductDetails`: the match from the
first point of sale (in enumeration order) that contains one, augmented with
that point of sale, and `none` only if no point of sale contains a match. -/
def specFirstMatchAnywhere (inv : Inventory) (identifier : String) : Option (Product × String) :=
  inv.findSome?
    (fun pr => ((pr.2.flatMap Prod.snd).find? (matchesIdentifier identifier)).map
      (fun p => (p, pr.1)))

/-! ### The `useInventory` hook return value and the inventory context (C3) -/

/-- The record returned by `useInventory` (`useInventory.ts` lines 155-162):
state plus the three lookup closures.  The hook no longer returns
`updateProductQuantity`, `addProduct` or `updateProductPrice` (they were
removed, see the comment at lines 148-153), so those fields are absent. -/
structure UseInventoryReturn where
  inventory : Inventory
  isInventoryLoaded : Bool
  error : Option String
  getPointsOfSale : Unit → List String
  getProductDetails : String → Option (Product × String)
  getProductDetailsInPos : String → String → Option Product

/-- JS property access `inventoryHookData.updateProductQuantity`
(`InventoryContext.tsx` line 145): the property is absent from the hook's
return object, so the access yields `undefined`, embedded as `none`. -/
def hookUpdateProductQuantity (_h : UseInventoryReturn) :
    Option (String → String → Int → Bool) := none

/-- JS property access `inventoryHookData.addProduct` (`InventoryContext.tsx`
line 146): absent property, `undefined`. -/
def hookAddProduct (_h : UseInventoryReturn) : Option (String → Product → Unit) := none

/-- JS property access `inventoryHookData.updateProductPrice`
(`InventoryContext.tsx` line 147): absent property, `undefined`. -/
def hookUpdateProductPrice (_h : UseInventoryReturn) :
    Option (String → String → ℚ → Bool) := none

/-- JS runtime errors observable by the verified handlers. -/
inductive JsError
  /-- calling a non-function value (`TypeError: x is not a function`) -/
  | typeError
deriving Repr, DecidableEq

/-- Invoking a possibly-`undefined` two-argument JS function value: calling
`undefined` throws a `TypeError`. -/
def jsCall2 {α β δ : Type} : Option (α → β → δ) → α → β → Except JsError δ
  | none, _, _ => .error .typeError
  | some f, a, b => .ok (f a b)

/-- Invoking a possibly-`undefined` three-argument JS function value: calling
`undefined` throws a `TypeError`. -/
def jsCall3 {α β γ δ : Type} : Option (α → β → γ → δ) → α → β → γ → Except JsError δ
  | none, _, _, _ => .error .typeError
  | some f, a, b, c => .ok (f a b c)

/-- The value exposed by `InventoryContext` (`InventoryContext.tsx`
`contextValue`, lines 140-162), with the declared-to-be-function fields typed
as possibly-`undefined` values. -/
structure InventoryContextValue where
  inventory : Inventory
  isInventoryLoaded : Bool
  getPointsOfSaleForUser : Unit → List String
  getAllPointsOfSale : Unit → List String
  updateProductQuantity : Option (String → String → Int → Bool)
  addProduct : Option (String → Product → Unit)
  updateProductPrice : Option (String → String → ℚ → Bool)
  getProductDetailsForUser : String → Option (Product × String)
  getProductDetailsAnywhere : String → Option (Product × String)
  getProductDetailsInPos : String → String → Option Product

/-- The construction of `contextValue` in `InventoryProvider`
(`InventoryContext.tsx` lines 140-162) from the hook data and the current
user. -/
def mkContextValue (u : Option User) (h : UseInventoryReturn) : InventoryContextValue :=
  { inventory := h.inventory
    isInventoryLoaded := h.isInventoryLoaded
    getPointsOfSaleForUser := fun _ => getPointsOfSaleForUser u h.inventory
    getAllPointsOfSale := h.getPointsOfSale
    updateProductQuantity := hookUpdateProductQuantity h
    addProduct := hookAddProduct h
    updateProductPrice := hookUpdateProductPrice h
    getProductDetailsForUser := fun idf => getProductDetailsForUser u h.inventory idf
    getProductDetailsAnywhere := h.getProductDetails
    getProductDetailsInPos := h.getProductDetailsInPos }

/-! ### Persistence operations (C2) and the initial inventory fetch (C8) -/

/-- An abstract persistence / network operation performed by a page effect. -/
inductive StoreOp
  | lsGet (key : String)
  | lsSet (key : String)
  | lsRemove (key : String)
  | httpFetch (url : String)
deriving Repr, DecidableEq

/-- `true` iff the operation is a browser local-storage operation on one of
the given keys (in particular it is not a network fetch). -/
def isLocalOpOn (keys : List String) : StoreOp → Bool
  | .lsGet k => decide (k ∈ keys)
  | .lsSet k => decide (k ∈ keys)
  | .lsRemove k => decide (k ∈ keys)
  | .httpFetch _ => false

/-- `'salesHistory'` (`src/app/grafica/page.tsx` line 45, `src/unnamed/part_004`). -/
def SALES_HISTORY_LOCAL_STORAGE_KEY : String := "salesHistory"

/-- `'wholesaleSalesHistory'` (`grafica/page.tsx` line 46, `part_004`). -/
def WHOLESALE_SALES_HISTORY_LOCAL_STORAGE_KEY : String := "wholesaleSalesHistory"

/-- `'invoiceHistoryBeautyApp'` (`grafica/page.tsx` line 47, `part_004`). -/
def INVOICES_LOCAL_STORAGE_KEY : String := "invoiceHistoryBeautyApp"

/-- `'cajaSettingsBeautyApp'` (`part_004` line 581). -/
def CAJA_SETTINGS_LOCAL_STORAGE_KEY : String := "cajaSettingsBeautyApp"

/-- Operations performed by the chart page's sales/invoice data load effect
(`grafica/page.tsx` lines 137-155). -/
def graficaChartLoadOps : List StoreOp :=
  [.lsGet SALES_HISTORY_LOCAL_STORAGE_KEY,
   .lsGet WHOLESALE_SALES_HISTORY_LOCAL_STORAGE_KEY,
   .lsGet INVOICES_LOCAL_STORAGE_KEY]

/-- Operations performed by the invoices page's load effect (`part_004` lines
60-76): read the stored invoices and, if parsing them fails, remove the key. -/
def invoicesLoadOps (parseFails : Bool) : List StoreOp :=
  [.lsGet INVOICES_LOCAL_STORAGE_KEY] ++
    (if parseFails then [.lsRemove INVOICES_LOCAL_STORAGE_KEY] else [])

/-- Operations performed by the invoices page's save effect (`part_004` lines
78-82). -/
def invoicesSaveOps : List StoreOp := [.lsSet INVOICES_LOCAL_STORAGE_KEY]

/-- Operations performed by `CajaPage.loadSettings` (`part_004` lines 617-640). -/
def cajaLoadSettingsOps : List StoreOp := [.lsGet CAJA_SETTINGS_LOCAL_STORAGE_KEY]

/-- Operations performed by `CajaPage.handleSaveSettings` (`part_004` lines
718-731); a non-admin user returns early without touching storage. -/
def cajaSaveSettingsOps (isAdmin : Bool) : List StoreOp :=
  if isAdmin then [.lsSet CAJA_SETTINGS_LOCAL_STORAGE_KEY] else []

/-- Operations performed by the caja page's daily income / monthly expenses
effect (`part_004` lines 661-704). -/
def cajaIncomeOps : List StoreOp :=
  [.lsGet SALES_HISTORY_LOCAL_STORAGE_KEY,
   .lsGet WHOLESALE_SALES_HISTORY_LOCAL_STORAGE_KEY,
   .lsGet INVOICES_LOCAL_STORAGE_KEY]

/-- JS `a || b` on strings: the empty string is falsy. -/
def jsOrElse (s fallback : String) : String := if s = "" then fallback else s

/-- `'/api/php/get_inventory.php'` (`useInventory.ts` line 59). -/
def INVENTORY_API_ENDPOINT : String := "/api/php/get_inventory.php"

/-- The environment's answer to the single `fetch` of
`fetchInitialInventory`. -/
inductive FetchOutcome
  /-- the `fetch` promise rejected with an error carrying this message -/
  | reject (errMessage : String)
  /-- a response arrived: its `ok` flag, status code and status text;
      `json` is the result of `response.json()` (`.error m` = the parse
      rejected with message `m`); `errField` is the `message` property of the
      parsed body when the parse succeeds (`none` = absent / `undefined`). -/
  | resp (ok : Bool) (status : Nat) (statusText : String)
      (json : Except String Inventory) (errField : Option String)

/-- The hook state left behind by `fetchInitialInventory`. -/
structure HookState where
  inventory : Inventory
  isInventoryLoaded : Bool
  error : Option String
deriving DecidableEq

/-- `fetchInitialInventory` from `useInventory.ts` (lines 76-98), as a pure
function from the fetch outcome to the final hook state together with the
network requests it issued.  The `finally` block sets `isInventoryLoaded` on
every path; every `catch` path stores `err.message || "No se pudo cargar el
inventario."` and resets the inventory to the empty object. -/
def fetchInitialInventory (w : FetchOutcome) : HookState × List StoreOp :=
  let reqs : List StoreOp := [.httpFetch INVENTORY_API_ENDPOINT]
  match w with
  | .reject m =>
    (⟨[], true, some (jsOrElse m "No se pudo cargar el inventario.")⟩, reqs)
  | .resp ok status statusText json errField =>
    if ok then
      match json with
      | .ok inv => (⟨inv, true, none⟩, reqs)
      | .error m =>
        (⟨[], true, some (jsOrElse m "No se pudo cargar el inventario.")⟩, reqs)
    else
      -- `errorData = await response.json().catch(() => ({message: ...}))`
      let errorDataMessage : String :=
        match json with
        | .error _ => "Error del servidor: " ++ toString status
        | .ok _ => errField.getD ""
      -- `throw new Error(errorData.message || "Error al cargar el inventario: ...")`
      let thrown := jsOrElse errorDataMessage ("Error al cargar el inventario: " ++ statusText)
      (⟨[], true, some (jsOrElse thrown "No se pudo cargar el inventario.")⟩, reqs)

/-- `true` iff the fetch outcome is a failure in the sense of C8: the network
request failed, the response was non-ok, or the response body failed to
parse. -/
def fetchFailed : FetchOutcome → Bool
  | .reject _ => true
  | .resp ok _ _ json _ =>
    !ok || (match json with | .error _ => true | .ok _ => false)

/-! ### Calendar dates and the product daily-sales chart (C1)

A JS `Date` always denotes a concrete instant; we embed it by its calendar
components.  Comparison of `Date` objects is comparison of their timestamps,
which for valid calendar components is exactly lexicographic comparison of
(year, month, day, milliseconds-of-day). -/

/-- A calendar date-time: year, month (1-12), day (1-31) and milliseconds
within the day. -/
structure Date where
  y : Nat
  m : Nat
  d : Nat
  ms : Nat
deriving Repr, DecidableEq

/-- Gregorian leap year. -/
def isLeapYear (y : Nat) : Bool := (y % 4 == 0 && y % 100 != 0) || y % 400 == 0

/-- Number of days of a month in the Gregorian calendar. -/
def daysInMonth (y m : Nat) : Nat :=
  if m = 2 then (if isLeapYear y then 29 else 28)
  else if m = 4 ∨ m = 6 ∨ m = 9 ∨ m = 11 then 30
  else 31

/-- Timestamp comparison `a <= b` of two JS `Date`s, i.e. lexicographic order
on the calendar components. -/
def Date.le (a b : Date) : Prop :=
  a.y < b.y ∨ (a.y = b.y ∧ (a.m < b.m ∨ (a.m = b.m ∧
    (a.d < b.d ∨ (a.d = b.d ∧ a.ms ≤ b.ms)))))

instance (a b : Date) : Decidable (Date.le a b) := by unfold Date.le; exact inferInstance

/-- A `Date` with meaningful calendar components (every actual JS `Date`
instant satisfies this). -/
def Date.Valid (a : Date) : Prop :=
  1 ≤ a.m ∧ a.m ≤ 12 ∧ 1 ≤ a.d ∧ a.d ≤ daysInMonth a.y a.m

instance (a : Date) : Decidable a.Valid := by unfold Date.Valid; exact inferInstance

/-- `setHours(0,0,0,0)`: start of the day of an instant. -/
def Date.startOfDay (a : Date) : Date := ⟨a.y, a.m, a.d, 0⟩

/-- `setDate(getDate()+1)` followed by `setHours(0,0,0,0)`: the start of the
next calendar day. -/
def Date.nextDay (a : Date) : Date :=
  if a.d < daysInMonth a.y a.m then ⟨a.y, a.m, a.d + 1, 0⟩
  else if a.m < 12 then ⟨a.y, a.m + 1, 1, 0⟩
  else ⟨a.y + 1, 1, 1, 0⟩

/-- The loop of date-fns `eachDayOfInterval`: emit `cur` and step to the next
day while `cur <= end`.  The explicit fuel only bounds the recursion; it is
chosen large enough (more than 500 steps per calendar year spanned, where a
year is never more than 372 steps) that the loop always terminates on its
`cur <= end` condition first. -/
def eachDayAux (endDate : Date) : Nat → Date → List Date
  | 0, _ => []
  | fuel + 1, cur =>
    if Date.le cur endDate then cur :: eachDayAux endDate fuel cur.nextDay else []

/-- date-fns `eachDayOfInterval {start, end}`: the starts of all calendar days
from the start of `s`'s day while they do not exceed the instant `e`. -/
def eachDayOfInterval (s e : Date) : List Date :=
  eachDayAux e ((e.y + 2 - s.y) * 500) s.startOfDay

/-- `format(date, 'dd/MM')`, the chart-day key, embedded as the (day, month)
pair (the sort comparator of the chart re-parses the two numbers, so the pair
is the faithful representation). -/
def dayKey (a : Date) : Nat × Nat := (a.d, a.m)

/-- `SaleRecordItem` from `src/app/grafica/page.tsx` (also the items of the
sales page's POST payload). -/
structure SaleRecordItem where
  barcode : String
  productName : String
  brandName : String
  quantity : Int
  price : ℚ
deriving Repr, DecidableEq

/-- The payment methods of a sale. -/
inductive PaymentMethod
  | cash
  | card
  | transfer
deriving Repr, DecidableEq

/-- `SaleRecord` from `grafica/page.tsx`.  `dateTime` is `none` when the
stored value does not parse to a valid instant (`isValid(new Date(...))` is
false). -/
structure SaleRecord where
  id : String
  dateTime : Option Date
  pointOfSale : String
  items : List SaleRecordItem
  paymentMethod : PaymentMethod
  totalAmount : ℚ
deriving Repr, DecidableEq

/-- `ChartDataPoint` from `grafica/page.tsx`: the `dd/MM` label (as its
(day, month) pair) and the units sold. -/
structure ChartPoint where
  date : Nat × Nat
  sales : Int
deriving Repr, DecidableEq

/-- The chart sort comparator (`grafica/page.tsx` lines 191-196): ascending by
month, then by day. -/
def chartPointLe (a b : ChartPoint) : Bool :=
  decide (a.date.2 < b.date.2 ∨ (a.date.2 = b.date.2 ∧ a.date.1 ≤ b.date.1))

/-- The product daily-sales chart effect (`grafica/page.tsx` lines 158-200) as
a pure function of its React inputs.  The `isClient` guard of the source is
always true when the effect computes and is dropped.  JS `Map` becomes an
ordered association list (`alGet` / `alSet`), and `Map.get(k) || 0` becomes
`(alGet k mp).getD 0` (both agree: a stored 0 is falsy). -/
def productSalesChartData (selectedProductBarcode : Option String)
    (productChartDateRange : Option (Date × Option Date))
    (allSalesData allWholesaleSalesData : List SaleRecord) : List ChartPoint :=
  match selectedProductBarcode, productChartDateRange with
  | some bc, some (rangeFrom, rangeTo) =>
    if bc = "" ∨ (allSalesData = [] ∧ allWholesaleSalesData = []) then []
    else
      let combinedSales := allSalesData ++ allWholesaleSalesData
      let startDate := rangeFrom
      let endDate := rangeTo.getD rangeFrom
      let daysInPeriod := eachDayOfInterval startDate endDate
      let chartDataMap0 : List ((Nat × Nat) × Int) :=
        daysInPeriod.foldl (fun mp day => alSet (dayKey day) 0 mp) []
      let chartDataMap :=
        combinedSales.foldl (fun mp sale =>
          match sale.dateTime with
          | none => mp
          | some saleDate =>
            if Date.le startDate saleDate ∧ Date.le saleDate endDate then
              sale.items.foldl (fun mp item =>
                if item.barcode = bc then
                  alSet (dayKey saleDate) (((alGet (dayKey saleDate) mp).getD 0) + item.quantity) mp
                else mp) mp
            else mp) chartDataMap0
      sortStable chartPointLe (chartDataMap.map (fun kv => ChartPoint.mk kv.1 kv.2))
  | _, _ => []

/-- First-occurrence deduplication (with an accumulator of already-seen keys);
used to state which distinct `dd/MM` labels the days of a range produce. -/
def keyDedupAux {κ : Type} [DecidableEq κ] (seen : List κ) : List κ → List κ
  | [] => []
  | k :: ks => if k ∈ seen then keyDedupAux seen ks else k :: keyDedupAux (k :: seen) ks

/-- Specification wording of C1: the day labels of the range, i.e. the
distinct `dd/MM` labels of the days of the interval, in day order. -/
def specDayLabels (startDate endDate : Date) : List (Nat × Nat) :=
  keyDedupAux [] ((eachDayOfInterval startDate endDate).map dayKey)

/-- Units of the selected barcode sold in one sale record: the sum of
`item.quantity` over the items with that barcode. -/
def saleQuantityFor (bc : String) (sale : SaleRecord) : Int :=
  ((sale.items.filter (fun it => it.barcode = bc)).map (fun it => it.quantity)).sum

/-- Specification wording of C1: units of the selected barcode sold on the
given day label, summed over the sale records with a valid `dateTime` lying
within the range and falling on that label. -/
def specDaySales (bc : String) (startDate endDate : Date) (sales : List SaleRecord)
    (k : Nat × Nat) : Int :=
  ((sales.filter (fun sa =>
      match sa.dateTime with
      | some dt => decide (Date.le startDate dt ∧ Date.le dt endDate) && decide (dayKey dt = k)
      | none => false)).map (saleQuantityFor bc)).sum

/-- Specification wording of C1 for the whole chart: one point per day label
of the range carrying that label's summed quantity (0 when no sale matches),
sorted by month then day. -/
def productChartSpec (bc : String) (startDate endDate : Date) (sales : List SaleRecord) :
    List ChartPoint :=
  sortStable chartPointLe ((specDayLabels startDate endDate).map
    (fun k => ChartPoint.mk k (specDaySales bc startDate endDate sales k)))

/-! ### The sales page submit handler (C4) -/

/-- One item of the sales form (`saleItemSchema`, `src/unnamed/part_005`). -/
structure SaleItemForm where
  identifier : String
  barcode : String
  productName : String
  brandName : String
  quantity : Int
  price : ℚ
  originalPrice : ℚ
  isKnownProduct : Bool
  stock : Int
deriving Repr, DecidableEq

/-- The sales form (`salesFormSchema`, `part_005`). -/
structure SalesFormValues where
  pointOfSale : String
  paymentMethod : PaymentMethod
  items : List SaleItemForm
deriving Repr, DecidableEq

/-- The body POSTed to `/api/php/record_sale.php` (`part_005` lines 665-678). -/
structure SalePayload where
  pointOfSale : String
  paymentMethod : PaymentMethod
  userId : String
  userName : String
  items : List SaleRecordItem
  totalAmount : ℚ
deriving Repr, DecidableEq

/-- `calculateTotalSale` (`part_005` lines 222-225): sum of price times
quantity over all form items (`x || 0` on a number is the identity here). -/
def calculateTotalSale (items : List SaleItemForm) : ℚ :=
  items.foldl (fun total item => ratAdd total (ratMul item.price (item.quantity : ℚ))) 0

/-- The `itemsToProcess` filter of the sales `onSubmit` (`part_005` lines
636-641): known product, non-empty (also after trimming) barcode and product
name, positive quantity. -/
def salesItemValid (it : SaleItemForm) : Bool :=
  it.isKnownProduct && !(it.barcode == "") && !(strTrim it.barcode == "")
    && !(it.productName == "") && !(strTrim it.productName == "")
    && decide (0 < it.quantity)

/-- `itemsToProcess` of the sales `onSubmit`. -/
def itemsToProcess (data : SalesFormValues) : List SaleItemForm :=
  data.items.filter salesItemValid

/-- The stock-validation loop of the sales `onSubmit` (`part_005` lines
649-663): the first processed item whose POS lookup is missing or has fewer
units than requested, together with the available quantity
(`productInStock?.quantity || 0`). -/
def firstStockFailure (inv : Inventory) (pos : String) (items : List SaleItemForm) :
    Option (SaleItemForm × Int) :=
  items.findSome? (fun it =>
    match getProductDetailsInPos inv pos it.barcode with
    | none => some (it, 0)
    | some p => if p.quantity < it.quantity then some (it, p.quantity) else none)

/-- Outcome of a sales submission: rejection by the zod schema (field errors,
no `onSubmit` call), one of the three `onSubmit` early returns (each shown to
the user as an error), or the POST of the payload. -/
inductive SalesSubmitResult
  | validationFailed
  | accessDenied
  | emptySale
  | insufficientStock (barcode : String) (available : Int)
  | posted (payload : SalePayload)
deriving Repr, DecidableEq

/-- The sales page `onSubmit` (`part_005` lines 630-726) as a pure function.
`accessiblePOS` comes from the inventory context; the POST itself and the
response handling are beyond the decision being verified, so the outcome
records whether (and with which body) the request is sent. -/
def salesOnSubmit (currentUser : Option User) (inv : Inventory) (data : SalesFormValues) :
    SalesSubmitResult :=
  let accessiblePOS := getPointsOfSaleForUser currentUser inv
  match currentUser with
  | none => .accessDenied
  | some user =>
    if accessiblePOS = [] ∨ data.pointOfSale ∉ accessiblePOS then .accessDenied
    else
      let toProcess := itemsToProcess data
      if toProcess = [] then .emptySale
      else
        match firstStockFailure inv data.pointOfSale toProcess with
        | some (it, avail) => .insufficientStock it.barcode avail
        | none =>
          .posted
            { pointOfSale := data.pointOfSale
              paymentMethod := data.paymentMethod
              userId := user.id
              userName := user.name
              items := toProcess.map (fun it =>
                { barcode := it.barcode, productName := it.productName,
                  brandName := it.brandName, quantity := it.quantity, price := it.price })
              totalAmount := calculateTotalSale data.items }

/-- The stock recorded for a barcode in a point of sale, in the sense of the
data model: the quantity of the (first) product of that point of sale whose
`barcode` field equals the given barcode. -/
def barcodeStockInPos (inv : Inventory) (pos barcode : String) : Option Int :=
  ((posProductsFlat inv pos).find? (fun p => p.barcode == barcode)).map (fun p => p.quantity)

/-- `saleItemSchema` (`part_005` lines 47-57): the per-item field checks.
`identifier` accepts any string (`min(1).or(z.literal(""))`), and
`originalPrice`, `isKnownProduct` and `stock` carry no constraint beyond
their zod defaults (already applied in the embedded form state). -/
def saleItemSchemaOk (it : SaleItemForm) : Bool :=
  !(it.barcode == "") && !(it.productName == "") && !(it.brandName == "")
    && decide (1 ≤ it.quantity) && decide (0 ≤ it.price)

/-- `salesFormSchema` (`part_005` lines 59-71): the form-level field checks
plus the two `refine`s — every item has a non-blank barcode and product name
and positive quantity, and every known item's quantity does not exceed its
`stock` snapshot. (`paymentMethod` is total in the embedding: the enum is the
`PaymentMethod` type.) -/
def salesFormSchemaOk (data : SalesFormValues) : Bool :=
  !(data.pointOfSale == "") && !data.items.isEmpty
    && data.items.all saleItemSchemaOk
    && data.items.all (fun it =>
        !(it.barcode == "") && !(strTrim it.barcode == "")
          && !(it.productName == "") && !(strTrim it.productName == "")
          && decide (0 < it.quantity))
    && data.items.all (fun it => !it.isKnownProduct || decide (it.quantity ≤ it.stock))

/-- The sales submission pipeline: `form.handleSubmit(onSubmit)` with
`zodResolver(salesFormSchema)` (`part_005` lines 128-129 and 832) runs
`onSubmit` only on data the schema accepts; a rejected form produces field
errors and no request. -/
def salesHandleSubmit (currentUser : Option User) (inv : Inventory)
    (data : SalesFormValues) : SalesSubmitResult :=
  if salesFormSchemaOk data then salesOnSubmit currentUser inv data
  else .validationFailed

/-! ### The supplier page submit handler (C5) -/

/-- One product line of the supplier form (`supplierProductSchema`,
`src/unnamed/part_003` lines 75-90). -/
structure SupplierProductForm where
  identifier : String
  barcode : String
  productName : String
  brandName : String
  quantity : Int
  purchasePrice : ℚ
  sellingPrice : Option ℚ
  imageUrl : Option String
  description : Option String
  aiHint : Option String
  isKnownProduct : Bool
  wholesaleQuantityThreshold : Option Int
  wholesalePrice : Option ℚ
  lowStockThreshold : Option Int
deriving Repr, DecidableEq

/-- The supplier form (`supplierFormSchema`, `part_003` lines 92-100). -/
structure SupplierFormValues where
  supplierName : String
  pointOfSale : String
  products : List SupplierProductForm
deriving Repr, DecidableEq

/-- The zod checks of `supplierProductSchema` (`part_003` lines 75-90).  The
`identifier` rule `min(1).or(literal(""))` is always satisfied; zod's
`.url()` validator is abstracted as the parameter `urlOk`. -/
def supplierProductSchemaOk (urlOk : String → Bool) (p : SupplierProductForm) : Bool :=
  !(p.barcode == "") && !(p.productName == "") && !(p.brandName == "")
    && decide (1 ≤ p.quantity) && decide (0 < p.purchasePrice)
    && (match p.sellingPrice with | none => true | some sp => decide (0 < sp))
    && (match p.imageUrl with | none => true | some u => u == "" || urlOk u)
    && (match p.wholesaleQuantityThreshold with | none => true | some t => decide (1 ≤ t))
    && (match p.wholesalePrice with | none => true | some wp => decide (0 < wp))
    && (match p.lowStockThreshold with | none => true | some t => decide (0 ≤ t))

/-- The zod checks of `supplierFormSchema` (`part_003` lines 92-100),
including the `.refine` requiring every product line to have a non-blank
barcode, product name and brand name. -/
def supplierFormSchemaOk (urlOk : String → Bool) (d : SupplierFormValues) : Bool :=
  !(d.supplierName == "") && !(d.pointOfSale == "") && !(decide (d.products = []))
    && d.products.all (supplierProductSchemaOk urlOk)
    && d.products.all (fun p =>
        !(p.barcode == "") && !(strTrim p.barcode == "")
          && !(p.productName == "") && !(strTrim p.productName == "")
          && !(p.brandName == "") && !(strTrim p.brandName == ""))

/-- One product of the body POSTed to `/api/php/add_supplier_entry.php`
(`part_003` lines 409-425). -/
structure SupplierPayloadProduct where
  barcode : String
  productName : String
  brandName : String
  quantity : Int
  purchasePrice : ℚ
  sellingPrice : Option ℚ
  imageUrl : Option String
  description : Option String
  aiHint : Option String
  wholesaleQuantityThreshold : Option Int
  wholesalePrice : Option ℚ
  lowStockThreshold : Option Int
  isKnownProductInPos : Bool
  currentSellingPriceInPos : Option ℚ
deriving Repr, DecidableEq

/-- The body POSTed to `/api/php/add_supplier_entry.php` (`part_003` lines
404-427). -/
structure SupplierEntryPayload where
  supplierName : String
  pointOfSale : String
  userId : String
  userName : String
  products : List SupplierPayloadProduct
  dateTime : String
deriving Repr, DecidableEq

/-- The payload filter of the supplier `onSubmit` (`part_003` line 409):
non-empty barcode, product name and brand name (JS truthiness) and positive
quantity. -/
def supplierQualifies (p : SupplierProductForm) : Bool :=
  !(p.barcode == "") && !(p.productName == "") && !(p.brandName == "")
    && decide (0 < p.quantity)

/-- The per-product payload mapping of the supplier `onSubmit` (`part_003`
lines 409-425), including the two POS-lookup-derived fields. -/
def supplierPayloadOf (inv : Inventory) (pos : String) (p : SupplierProductForm) :
    SupplierPayloadProduct :=
  { barcode := p.barcode
    productName := p.productName
    brandName := p.brandName
    quantity := p.quantity
    purchasePrice := p.purchasePrice
    sellingPrice := p.sellingPrice
    imageUrl := p.imageUrl
    description := p.description
    aiHint := p.aiHint
    wholesaleQuantityThreshold := p.wholesaleQuantityThreshold
    wholesalePrice := p.wholesalePrice
    lowStockThreshold := p.lowStockThreshold
    isKnownProductInPos := (getProductDetailsInPos inv pos p.barcode).isSome
    currentSellingPriceInPos := (getProductDetailsInPos inv pos p.barcode).map (fun q => q.price) }

/-- Outcome of the supplier submission pipeline. -/
inductive SupplierSubmitResult
  | validationFailed
  | accessDenied
  | invalidEntry
  | posted (payload : SupplierEntryPayload)
deriving Repr, DecidableEq

/-- The supplier page `onSubmit` (`part_003` lines 398-480) as a pure
function; `now` is the `new Date().toISOString()` of the submission. -/
def suppliersOnSubmit (currentUser : Option User) (inv : Inventory)
    (data : SupplierFormValues) (now : String) : SupplierSubmitResult :=
  let accessiblePOS := getPointsOfSaleForUser currentUser inv
  match currentUser with
  | none => .accessDenied
  | some user =>
    if accessiblePOS = [] ∨ data.pointOfSale ∉ accessiblePOS then .accessDenied
    else
      let payloadProducts :=
        (data.products.filter supplierQualifies).map (supplierPayloadOf inv data.pointOfSale)
      if payloadProducts = [] then .invalidEntry
      else
        .posted
          { supplierName := data.supplierName
            pointOfSale := data.pointOfSale
            userId := user.id
            userName := user.name
            products := payloadProducts
            dateTime := now }

/-- The submission pipeline: `form.handleSubmit(onSubmit)` with the
`zodResolver` runs `onSubmit` only on data that passes the schema. -/
def suppliersHandleSubmit (urlOk : String → Bool) (currentUser : Option User)
    (inv : Inventory) (data : SupplierFormValues) (now : String) : SupplierSubmitResult :=
  if supplierFormSchemaOk urlOk data then suppliersOnSubmit currentUser inv data now
  else .validationFailed

/-! ### The PHP supplier-entry endpoint (C9)

`src/add_supplier_entry_example.php` wraps all of its writes in one PDO
transaction (`beginTransaction` at line 56, `commit` at line 260, `rollBack`
in the `catch` at lines 276-279).  The database is embedded as a value and the
transaction as the standard snapshot semantics: the handler computes the new
database in an `Except` monad and any thrown error returns the original
database. -/

/-- PHP `empty()` on a string: the empty string and the string `"0"` are
empty. -/
def phpEmpty (s : String) : Bool := s == "" || s == "0"

/-- A row of the `products` table (the columns the endpoint touches). -/
structure ProductRow where
  barcode : String
  name : String
  brandName : String
  defaultSellingPrice : ℚ
  imageUrl : Option String
  description : Option String
  aiHint : Option String
  wholesaleQuantityThreshold : Option Int
  wholesalePrice : Option ℚ
  defaultLowStockThreshold : Option Int
deriving Repr, DecidableEq

/-- A row of the `inventory_stock` table (the columns the endpoint touches;
`lastStockedAt` is omitted, the endpoint only ever sets it to `NOW()`). -/
structure StockRow where
  stockId : Nat
  productBarcode : String
  posId : Nat
  quantity : Int
  posSpecificSellingPrice : ℚ
  posSpecificLowStockThreshold : Option Int
deriving Repr, DecidableEq

/-- A row of the `supplier_entries` table. -/
structure EntryRow where
  entryId : String
  dateTime : String
  supplierName : String
  posId : Nat
  userIdInternal : Option Nat
  userNameAtEntry : Option String
deriving Repr, DecidableEq

/-- A row of the `supplier_entry_items` table. -/
structure EntryItemRow where
  entryId : String
  productBarcode : String
  quantityReceived : Int
  purchasePricePerUnit : ℚ
  productDescriptionAtEntry : Option String
  oldSellingPriceAtEntry : Option ℚ
  newSellingPriceAtEntry : Option ℚ
  wholesaleQuantityThresholdAtEntry : Option Int
  wholesalePriceAtEntry : Option ℚ
  lowStockThresholdAtEntry : Option Int
deriving Repr, DecidableEq

/-- The persisted state the endpoint reads and writes.  `pointsOfSale` maps a
POS name to its `pos_id`, `users` maps a `user_app_id` to the internal id;
`nextStockId` models the auto-generated key of `inventory_stock`. -/
structure DB where
  pointsOfSale : List (String × Nat)
  users : List (String × Nat)
  supplierEntries : List EntryRow
  supplierEntryItems : List EntryItemRow
  products : List ProductRow
  inventoryStock : List StockRow
  nextStockId : Nat
deriving DecidableEq

/-- The HTTP result of the endpoint. -/
inductive PhpResult
  | badRequest (msg : String)
  | serverError (msg : String)
  | created (entryId : String)
deriving Repr, DecidableEq

/-- `trim` under `Option` (PHP `isset(x) ? trim(x) : null`). -/
def trimOpt (o : Option String) : Option String := o.map strTrim

/-- Processing of a single product of the payload inside the transaction
(`add_supplier_entry_example.php` lines 104-257): validate the line, upsert
the `products` row, insert the `supplier_entry_items` row, and upsert the
`inventory_stock` row.  A conditional SQL `UPDATE f = new WHERE ...` guarded
by `new != old` has the same effect as an unconditional write of the merged
value, so the guarded per-column updates are written as the merged row. -/
def processSupplierProduct (entryId : String) (posId : Nat) (db : DB)
    (prod : SupplierPayloadProduct) : Except String DB :=
  if phpEmpty prod.barcode || phpEmpty prod.productName || phpEmpty prod.brandName
      || decide (prod.quantity ≤ 0) || decide (prod.purchasePrice ≤ 0) then
    .error ("Datos de producto invalidos para el codigo de barras: " ++ prod.barcode)
  else
    let barcode := strTrim prod.barcode
    let productName := strTrim prod.productName
    let brandName := strTrim prod.brandName
    let quantityReceived := prod.quantity
    let purchasePrice := prod.purchasePrice
    let sellingPricePayload := prod.sellingPrice
    let imageUrlPayload := trimOpt prod.imageUrl
    let descriptionPayload := trimOpt prod.description
    let aiHintPayload := trimOpt prod.aiHint
    let wholesaleThresholdPayload := prod.wholesaleQuantityThreshold
    let wholesalePricePayload := prod.wholesalePrice
    let lowStockThresholdPayload := prod.lowStockThreshold
    -- a. `SELECT * FROM products WHERE barcode = :barcode` (first row)
    let existingProduct := db.products.find? (fun r => r.barcode == barcode)
    let step1 : DB × Option ℚ :=
      match existingProduct with
      | none =>
        -- new product: INSERT with default selling price payload ?? purchase * 1.5
        let defaultSellingPrice := sellingPricePayload.getD (ratMul purchasePrice (mkRat 3 2))
        ({ db with products := db.products ++
            [{ barcode := barcode, name := productName, brandName := brandName,
               defaultSellingPrice := defaultSellingPrice,
               imageUrl := imageUrlPayload, description := descriptionPayload,
               aiHint := aiHintPayload,
               wholesaleQuantityThreshold := wholesaleThresholdPayload,
               wholesalePrice := wholesalePricePayload,
               defaultLowStockThreshold := lowStockThresholdPayload }] },
         (none : Option ℚ))
      | some old =>
        -- existing product: UPDATE the provided columns (WHERE barcode = ...)
        let updated : ProductRow :=
          { old with
            name := productName
            brandName := brandName
            imageUrl := match imageUrlPayload with | some u => some u | none => old.imageUrl
            description :=
              match descriptionPayload with | some s => some s | none => old.description
            aiHint := match aiHintPayload with | some s => some s | none => old.aiHint
            wholesaleQuantityThreshold :=
              match wholesaleThresholdPayload with
              | some t => some t
              | none => old.wholesaleQuantityThreshold
            wholesalePrice :=
              match wholesalePricePayload with | some w => some w | none => old.wholesalePrice
            defaultLowStockThreshold :=
              match lowStockThresholdPayload with
              | some t => some t
              | none => old.defaultLowStockThreshold }
        ({ db with products := db.products.map (fun r => if r.barcode == barcode then updated else r) },
         some old.defaultSellingPrice)
    let db1 := step1.1
    let oldSellingPriceForItemEntry := step1.2
    -- b. INSERT INTO supplier_entry_items
    let db2 : DB :=
      { db1 with supplierEntryItems := db1.supplierEntryItems ++
        [{ entryId := entryId, productBarcode := barcode,
           quantityReceived := quantityReceived,
           purchasePricePerUnit := purchasePrice,
           productDescriptionAtEntry := descriptionPayload,
           oldSellingPriceAtEntry := oldSellingPriceForItemEntry,
           newSellingPriceAtEntry := sellingPricePayload,
           wholesaleQuantityThresholdAtEntry := wholesaleThresholdPayload,
           wholesalePriceAtEntry := wholesalePricePayload,
           lowStockThresholdAtEntry := lowStockThresholdPayload }] }
    -- c. upsert inventory_stock (first row with this barcode and pos)
    let existingStockItem :=
      db2.inventoryStock.find? (fun r => r.productBarcode == barcode && r.posId == posId)
    match existingStockItem with
    | some st =>
      let updated : StockRow :=
        { st with
          quantity := st.quantity + quantityReceived
          posSpecificSellingPrice := sellingPricePayload.getD st.posSpecificSellingPrice
          posSpecificLowStockThreshold :=
            match lowStockThresholdPayload with
            | some t => some t
            | none => st.posSpecificLowStockThreshold }
      .ok { db2 with inventoryStock :=
              db2.inventoryStock.map (fun r => if r.stockId == st.stockId then updated else r) }
    | none =>
      let posSpecificPrice :=
        sellingPricePayload.getD
          (match existingProduct with
           | some pr => pr.defaultSellingPrice
           | none => ratMul purchasePrice (mkRat 3 2))
      let posSpecificLowThresh :=
        match lowStockThresholdPayload with
        | some t => some t
        | none => existingProduct.bind (fun pr => pr.defaultLowStockThreshold)
      .ok { db2 with
            inventoryStock := db2.inventoryStock ++
              [{ stockId := db2.nextStockId, productBarcode := barcode, posId := posId,
                 quantity := quantityReceived,
                 posSpecificSellingPrice := posSpecificPrice,
                 posSpecificLowStockThreshold := posSpecificLowThresh }]
            nextStockId := db2.nextStockId + 1 }

/-- The body of the transaction (`add_supplier_entry_example.php` lines
58-257): resolve the POS, optionally resolve the user, insert the
`supplier_entries` row, then process each product in order.  Any `throw`
escapes as `.error`. -/
def runSupplierEntry (db : DB) (p : SupplierEntryPayload) (entryId dateTime : String) :
    Except String DB := do
  let supplierName := strTrim p.supplierName
  let posName := strTrim p.pointOfSale
  let userAppId := strTrim p.userId
  let userNameAtEntry := strTrim p.userName
  let posId ← match alGet posName db.pointsOfSale with
    | some i => Except.ok i
    | none => Except.error ("Punto de Venta no encontrado: " ++ posName)
  let userIdInternal := alGet userAppId db.users
  let db0 :=
    { db with supplierEntries := db.supplierEntries ++
        [{ entryId := entryId, dateTime := dateTime, supplierName := supplierName,
           posId := posId, userIdInternal := userIdInternal,
           userNameAtEntry := some userNameAtEntry }] }
  p.products.foldlM (fun acc prod => processSupplierProduct entryId posId acc prod) db0

/-- The whole endpoint (`add_supplier_entry_example.php`): basic input
validation (a 400 before the transaction starts), then the transaction; on
any exception the transaction is rolled back, so the database reverts to its
initial value.  `entryId` and `dateTime` stand for the generated
`supplier-(time)-(random)` id and `date(...)` timestamp. -/
def addSupplierEntryHandler (db : DB) (payload : SupplierEntryPayload)
    (entryId dateTime : String) : DB × PhpResult :=
  if phpEmpty payload.supplierName || phpEmpty payload.pointOfSale
      || phpEmpty payload.userId || decide (payload.products = []) then
    (db, .badRequest "Faltan campos requeridos o la lista de productos esta vacia.")
  else
    match runSupplierEntry db payload entryId dateTime with
    | .ok db2 => (db2, .created entryId)
    | .error msg => (db, .serverError ("Error al procesar la entrada del proveedor: " ++ msg))

/-! ### The low-stock listing (C10) -/

/-- `DEFAULT_LOW_STOCK_THRESHOLD` (`src/app/low-stock/page.tsx` line 15). -/
def DEFAULT_LOW_STOCK_THRESHOLD : Int := 5

/-- The effective low-stock threshold of a product (`low-stock/page.tsx`
lines 50-52): the custom `lowStockThreshold` when non-null and positive,
otherwise the global default. -/
def thresholdOf (p : Product) : Int :=
  match p.lowStockThreshold with
  | some t => if 0 < t then t else DEFAULT_LOW_STOCK_THRESHOLD
  | none => DEFAULT_LOW_STOCK_THRESHOLD

/-- The low-stock condition (`low-stock/page.tsx` line 54). -/
def isLowStock (p : Product) : Bool :=
  decide (0 < p.quantity) && decide (p.quantity ≤ thresholdOf p)

/-- JS `String.prototype.includes`. -/
def strIncludes (s sub : String) : Bool := decide (sub.toList <:+: s.toList)

/-- The search filter of the listing (`low-stock/page.tsx` lines 55-58). -/
def matchesSearch (searchTerm brand : String) (p : Product) : Bool :=
  let lowerSearchTerm := strLower searchTerm
  lowerSearchTerm == ""
    || strIncludes (strLower p.name) lowerSearchTerm
    || strIncludes (strLower p.barcode) lowerSearchTerm
    || strIncludes (strLower brand) lowerSearchTerm

/-- One listing entry: `{ ...product, pointOfSale: pos }`. -/
structure LowStockEntry where
  product : Product
  pointOfSale : String
deriving Repr, DecidableEq

/-- Processing of one (pos, brand, product) triple by the listing builder
(`low-stock/page.tsx` lines 49-73): a low-stock, search-matching product is
pushed into its brand group (key `brand || "Marca Desconocida"`) unless the
group already holds an entry with the same barcode and point of sale. -/
def lowStockStep (searchTerm pos : String) (g : List (String × List LowStockEntry))
    (brand : String) (p : Product) : List (String × List LowStockEntry) :=
  if isLowStock p && matchesSearch searchTerm brand p then
    let brandKey := if brand = "" then "Marca Desconocida" else brand
    match alGet brandKey g with
    | none => g ++ [(brandKey, [⟨p, pos⟩])]
    | some l =>
      if l.any (fun e => e.product.barcode == p.barcode && e.pointOfSale == pos) then g
      else alSet brandKey (l ++ [⟨p, pos⟩]) g
  else g

/-- The grouping loops of `lowStockProductsByBrand` (`low-stock/page.tsx`
lines 45-76): fold over the accessible points of sale, their brands and their
products. -/
def lowStockGroupedRaw (inv : Inventory) (accessiblePOS : List String)
    (searchTerm : String) : List (String × List LowStockEntry) :=
  accessiblePOS.foldl (fun g pos =>
    ((alGet pos inv).getD []).foldl (fun g bp =>
      bp.2.foldl (fun g p => lowStockStep searchTerm pos g bp.1 p) g) g) []

/-- The name comparator used to sort each brand group
(`a.name.localeCompare(b.name)`). -/
def entryNameLe (a b : LowStockEntry) : Bool := strLe a.product.name b.product.name

/-- `lowStockProductsByBrand` (`low-stock/page.tsx` lines 37-89): empty until
the inventory is loaded and some POS is accessible; otherwise the grouped
entries with each group sorted by product name and the groups emitted in
sorted brand order. -/
def lowStockProductsByBrand (isInventoryLoaded : Bool) (u : Option User) (inv : Inventory)
    (searchTerm : String) : List (String × List LowStockEntry) :=
  let accessiblePOS := getPointsOfSaleForUser u inv
  if isInventoryLoaded = false ∨ accessiblePOS = [] then []
  else
    let grouped := lowStockGroupedRaw inv accessiblePOS searchTerm
    let sortedGroups := grouped.map (fun kl => (kl.1, sortStable entryNameLe kl.2))
    let sortedBrands := sortStable strLe (sortedGroups.map Prod.fst)
    sortedBrands.filterMap (fun k => (alGet k sortedGroups).map (fun l => (k, l)))

/-! ### Proof-layer definitions

Reformulations used to reason about the folds above (they introduce no new
behaviour). -/

/-- The four local-storage keys named by the specification. -/
def persistedLocalKeys : List String :=
  [SALES_HISTORY_LOCAL_STORAGE_KEY, WHOLESALE_SALES_HISTORY_LOCAL_STORAGE_KEY,
   INVOICES_LOCAL_STORAGE_KEY, CAJA_SETTINGS_LOCAL_STORAGE_KEY]

/-- The single map update performed by the chart effect for one matching item:
add `q` to the value stored under `k` (0 when absent). -/
def bumpKey (k : Nat × Nat) (q : Int) (mp : List ((Nat × Nat) × Int)) :
    List ((Nat × Nat) × Int) :=
  alSet k (((alGet k mp).getD 0) + q) mp

/-- The (day-label, quantity) increments one sale record contributes to the
chart map: nothing for an invalid or out-of-range date, otherwise one
increment per item with the selected barcode. -/
def saleIncs (bc : String) (startDate endDate : Date) (sale : SaleRecord) :
    List ((Nat × Nat) × Int) :=
  match sale.dateTime with
  | none => []
  | some dt =>
    if Date.le startDate dt ∧ Date.le dt endDate then
      sale.items.filterMap
        (fun item => if item.barcode = bc then some (dayKey dt, item.quantity) else none)
    else []

/-- All increments of a sale list, in processing order. -/
def chartIncs (bc : String) (startDate endDate : Date) (sales : List SaleRecord) :
    List ((Nat × Nat) × Int) :=
  sales.flatMap (saleIncs bc startDate endDate)

/-- A strictly `nextDay`-increasing measure on valid dates, used to show the
`eachDayAux` fuel suffices. -/
def dateWeight (a : Date) : Nat := a.y * 500 + a.m * 35 + a.d

/-- The brand grouping key of the low-stock listing:
`brand || "Marca Desconocida"`. -/
def brandKeyOf (brand : String) : String :=
  if brand = "" then "Marca Desconocida" else brand

/-- All (point of sale, brand, product) triples scanned by the low-stock
listing, in scan order. -/
def lowStockTriples (inv : Inventory) (apos : List String) :
    List (String × String × Product) :=
  apos.flatMap (fun pos =>
    ((alGet pos inv).getD []).flatMap (fun bp => bp.2.map (fun p => (pos, bp.1, p))))

/-- Two listing entries do not collide on the (barcode, point of sale) pair. -/
def entryDistinct (e1 e2 : LowStockEntry) : Prop :=
  ¬(e1.product.barcode = e2.product.barcode ∧ e1.pointOfSale = e2.pointOfSale)

instance (e1 e2 : LowStockEntry) : Decidable (entryDistinct e1 e2) := by
  unfold entryDistinct
  exact inferInstance

/-- Invariant of the grouping fold: every stored entry is a low-stock product
of one of the scanned triples filed under its brand key, every group is free
of (barcode, point of sale) collisions, and the brand keys are distinct. -/
def lowStockInv (T : List (String × String × Product))
    (g : List (String × List LowStockEntry)) : Prop :=
  (∀ bl ∈ g, ∀ e ∈ bl.2, isLowStock e.product = true
    ∧ ∃ t ∈ T, e.pointOfSale = t.1 ∧ e.product = t.2.2 ∧ bl.1 = brandKeyOf t.2.1)
  ∧ (∀ bl ∈ g, bl.2.Pairwise entryDistinct)
  ∧ (g.map Prod.fst).Nodup

/-- A (barcode, point of sale) pair is represented in the group stored under
brand key `b`. -/
def hasEntryFor (g : List (String × List LowStockEntry)) (b bar pos : String) : Prop :=
  ∃ l, alGet b g = some l ∧ ∃ e ∈ l, e.product.barcode = bar ∧ e.pointOfSale = pos

/-! ### Concrete fixtures for witnesses and counterexamples -/

/-- Witness user for C6 (access limited to one store). -/
def user6 : User := ⟨"user-6", "User Six", ["Main Store"]⟩

/-- Witness product. -/
def prod6 : Product := ⟨"p6", "Champu", 10, "600100", "", 15, "BrandA", none, none, none, none⟩

/-- Witness inventory for C6. -/
def inv6 : Inventory := [("Main Store", [("BrandA", [prod6])]), ("Warehouse", [("BrandA", [prod6])])]

/-- Second witness product for C7. -/
def prod7 : Product := ⟨"p7", "Acond", 4, "700200", "", 18, "BrandB", none, none, none, none⟩

/-- Witness inventory for C7. -/
def inv7 : Inventory := [("Main Store", [("BrandA", [prod6]), ("BrandB", [prod7])])]

/-- Witness user for C4. -/
def user4 : User := ⟨"u4", "Clerk", ["Main Store"]⟩

/-- Witness product for C4. -/
def prod4 : Product := ⟨"p4", "Gel", 10, "B1", "", 5, "BrandA", none, none, none, none⟩

/-- Witness inventory for C4. -/
def inv4 : Inventory := [("Main Store", [("BrandA", [prod4])])]

/-- Witness sale form item for C4. -/
def item4 : SaleItemForm := ⟨"Gel", "B1", "Gel", "BrandA", 2, 5, 5, true, 10⟩

/-- Witness sales form for C4. -/
def data4 : SalesFormValues := ⟨"Main Store", .cash, [item4]⟩

/-- The payload the witness C4 submission posts. -/
def payload4 : SalePayload :=
  ⟨"Main Store", .cash, "u4", "Clerk", [⟨"B1", "Gel", "BrandA", 2, 5⟩], 10⟩

/-- Witness user for C5. -/
def user5 : User := ⟨"u5", "User Five", ["Main Store"]⟩

/-- Witness inventory for C5 (the accessible store exists and is empty). -/
def inv5 : Inventory := [("Main Store", [])]

/-- Witness supplier form product line for C5. -/
def sp5 : SupplierProductForm :=
  ⟨"", "500", "Tinte", "BrandX", 3, 2, some 4, none, none, none, false, none, none, none⟩

/-- Witness supplier form for C5. -/
def data5 : SupplierFormValues := ⟨"Prov", "Main Store", [sp5]⟩

/-- The payload the witness C5 submission posts. -/
def payload5 : SupplierEntryPayload :=
  ⟨"Prov", "Main Store", "u5", "User Five",
   [⟨"500", "Tinte", "BrandX", 3, 2, some 4, none, none, none, none, none, none, false, none⟩],
   "2024-01-01T00:00:00Z"⟩

/-- Witness fetch outcome for C8: a non-ok response whose body does not
parse. -/
def w8 : FetchOutcome := .resp false 500 "Internal Server Error" (.error "parse error") none

/-- C9 fixture database: one point of sale, one user, empty tables. -/
def db9 : DB :=
  { pointsOfSale := [("Main Store", 1)]
    users := [("u9", 7)]
    supplierEntries := []
    supplierEntryItems := []
    products := []
    inventoryStock := []
    nextStockId := 1 }

/-- C9 fixture: a valid product line. -/
def goodLine : SupplierPayloadProduct :=
  ⟨"111", "Shampoo", "BrandA", 2, 10, some 15, none, none, none, none, none, none, false, none⟩

/-- C9 fixture: an invalid product line (quantity 0). -/
def badLine : SupplierPayloadProduct :=
  ⟨"222", "Rinse", "BrandA", 0, 10, some 12, none, none, none, none, none, none, false, none⟩

/-- C9 fixture payload whose second product line fails validation after the
first line has already been written inside the transaction. -/
def payload9 : SupplierEntryPayload :=
  ⟨"Proveedor", "Main Store", "u9", "User Nine", [goodLine, badLine], "2024-01-01"⟩

/-- C9 fixture payload holding only the valid prefix of `payload9`. -/
def payload9good : SupplierEntryPayload :=
  ⟨"Proveedor", "Main Store", "u9", "User Nine", [goodLine], "2024-01-01"⟩

/-- C1 fixture sale: two units of barcode 600100 sold on 5 January 2024. -/
def saleW : SaleRecord :=
  ⟨"s1", some ⟨2024, 1, 5, 100⟩, "Main Store",
   [⟨"600100", "Champu", "BrandA", 2, 15⟩], PaymentMethod.cash, 30⟩

/-- C1 fixture range start: 5 January 2024. -/
def fromW : Date := ⟨2024, 1, 5, 0⟩

/-- C1 fixture range end: 6 January 2024. -/
def toW : Date := ⟨2024, 1, 6, 0⟩

/-- C10 fixture user with access to one store. -/
def u10 : User := ⟨"u10", "User Ten", ["Main Store"]⟩

/-- C10 fixture: a low-stock product with barcode 111 under BrandA. -/
def pX : Product := ⟨"pX", "Alpha", 1, "111", "", 10, "BrandA", none, none, none, none⟩

/-- C10 fixture: a low-stock product with the same barcode 111 under BrandB. -/
def pY : Product := ⟨"pY", "Beta", 1, "111", "", 10, "BrandB", none, none, none, none⟩

/-- C10 fixture inventory: one store, the two same-barcode products under two
different brands. -/
def inv10 : Inventory := [("Main Store", [("BrandA", [pX]), ("BrandB", [pY])])]

/-! ## Theorems -/

/-- Membership in an insertion step. -/
theorem mem_insertSorted {le : α → α → Bool} {a x : α} :
    ∀ {l : List α}, x ∈ insertSorted le a l ↔ x = a ∨ x ∈ l := by
  intro l
  induction l with
  | nil => simp [insertSorted]
  | cons b bs ih =>
    simp only [insertSorted]
    split
    · simp
    · simp only [List.mem_cons, ih]
      tauto

/-- Membership is preserved by the stable sort. -/
theorem mem_sortStable {le : α → α → Bool} {x : α} :
    ∀ {l : List α}, x ∈ sortStable le l ↔ x ∈ l := by
  intro l
  induction l with
  | nil => simp [sortStable]
  | cons a l ih =>
    have hstep : sortStable le (a :: l) = insertSorted le a (sortStable le l) := rfl
    rw [hstep, mem_insertSorted, ih]
    simp

/-- The stable sort permutes its input. -/
theorem sortStable_perm (le : α → α → Bool) :
    ∀ (l : List α), List.Perm (sortStable le l) l := by
  intro l
  induction l with
  | nil => simp [sortStable]
  | cons a l ih =>
    have hins : ∀ (m : List α), List.Perm (insertSorted le a m) (a :: m) := by
      intro m
      induction m with
      | nil => exact List.Perm.refl _
      | cons b bs ihm =>
        simp only [insertSorted]
        split
        · exact List.Perm.refl _
        · exact ((ihm.cons b).trans (List.Perm.swap a b bs))
    have hstep : sortStable le (a :: l) = insertSorted le a (sortStable le l) := rfl
    rw [hstep]
    exact (hins _).trans (ih.cons a)

/-- Inserting into a sorted list keeps it sorted (for a total, transitive
comparator). -/
theorem pairwise_insertSorted {le : α → α → Bool}
    (htrans : ∀ a b c, le a b = true → le b c = true → le a c = true)
    (htotal : ∀ a b, (le a b || le b a) = true) (a : α) :
    ∀ {l : List α}, l.Pairwise (fun x y => le x y = true) →
      (insertSorted le a l).Pairwise (fun x y => le x y = true) := by
  intro l
  induction l with
  | nil => simp [insertSorted]
  | cons b bs ih =>
    intro hp
    rcases List.pairwise_cons.mp hp with ⟨hb, hbs⟩
    simp only [insertSorted]
    split
    · rename_i hab
      refine List.pairwise_cons.mpr ⟨?_, hp⟩
      intro x hx
      rcases List.mem_cons.mp hx with hxb | hxbs
      · exact hxb ▸ hab
      · exact htrans a b x hab (hb x hxbs)
    · rename_i hnab
      have hba : le b a = true := by
        have := htotal a b
        rcases Bool.or_eq_true_iff.mp this with h | h
        · exact absurd h hnab
        · exact h
      refine List.pairwise_cons.mpr ⟨?_, ih hbs⟩
      intro x hx
      rcases mem_insertSorted.mp hx with hxa | hxbs
      · exact hxa ▸ hba
      · exact hb x hxbs

/-- The stable sort sorts (for a total, transitive comparator). -/
theorem pairwise_sortStable {le : α → α → Bool}
    (htrans : ∀ a b c, le a b = true → le b c = true → le a c = true)
    (htotal : ∀ a b, (le a b || le b a) = true) :
    ∀ (l : List α), (sortStable le l).Pairwise (fun x y => le x y = true) := by
  intro l
  induction l with
  | nil => simp [sortStable]
  | cons a l ih => exact pairwise_insertSorted htrans htotal a ih

/-- C2: the sales-history chart data, the caja settings and the invoice
records are persisted directly in browser local storage under the keys
`salesHistory`, `wholesaleSalesHistory`, `invoiceHistoryBeautyApp` and
`cajaSettingsBeautyApp`: every read and write of this data performed by the
chart, caja and invoices page effects is a local-storage operation on one of
those keys, and none of them is a network fetch. -/
theorem localOnly_persistence (parseFails isAdmin : Bool) :
    ((graficaChartLoadOps ++ invoicesLoadOps parseFails ++ invoicesSaveOps
        ++ cajaLoadSettingsOps ++ cajaSaveSettingsOps isAdmin ++ cajaIncomeOps).all
      (isLocalOpOn persistedLocalKeys)) = true := by
  cases parseFails <;> cases isAdmin <;> decide

/-- C3: the inventory context exposes `updateProductQuantity`, `addProduct`
and `updateProductPrice`, but the `useInventory` hook no longer returns these
functions, so for every consumer of the context the three fields are
`undefined` and any invocation of them throws a `TypeError`; in particular
the declared boolean-returning contract is never satisfiable. -/
theorem context_mutators_undefined (u : Option User) (h : UseInventoryReturn)
    (pos barcode : String) (change : Int) (newPrice : ℚ) (p : Product) :
    (mkContextValue u h).updateProductQuantity = none
    ∧ (mkContextValue u h).addProduct = none
    ∧ (mkContextValue u h).updateProductPrice = none
    ∧ jsCall3 (mkContextValue u h).updateProductQuantity pos barcode change
        = .error .typeError
    ∧ jsCall2 (mkContextValue u h).addProduct pos p = .error .typeError
    ∧ jsCall3 (mkContextValue u h).updateProductPrice pos barcode newPrice
        = .error .typeError :=
  ⟨rfl, rfl, rfl, rfl, rfl, rfl⟩

/-- C8: the inventory is loaded by a single GET to
`/api/php/get_inventory.php`; on a non-ok response or a parse failure the
inventory state is set to the empty object and an error message is exposed,
and in every case (success or failure) `isInventoryLoaded` ends up true. -/
theorem fetch_inventory_error_handling (w : FetchOutcome) :
    (fetchInitialInventory w).2 = [StoreOp.httpFetch INVENTORY_API_ENDPOINT]
    ∧ (fetchInitialInventory w).1.isInventoryLoaded = true
    ∧ (fetchFailed w = true →
        (fetchInitialInventory w).1.inventory = []
        ∧ (fetchInitialInventory w).1.error.isSome = true) := by
  cases w with
  | reject m => exact ⟨rfl, rfl, fun _ => ⟨rfl, rfl⟩⟩
  | resp ok status statusText json errField =>
    cases ok <;> cases json <;>
      first
        | exact ⟨rfl, rfl, fun _ => ⟨rfl, rfl⟩⟩
        | exact ⟨rfl, rfl, fun hf => by simp [fetchFailed] at hf⟩

/-- C8 witness: a concrete failing response (HTTP 500, unparsable body)
leaves the empty inventory, an exposed error and `isInventoryLoaded = true`. -/
theorem fetch_inventory_error_handling_witness :
    fetchFailed w8 = true
    ∧ (fetchInitialInventory w8).1.isInventoryLoaded = true
    ∧ (fetchInitialInventory w8).1.inventory = []
    ∧ (fetchInitialInventory w8).1.error.isSome = true := by
  have h := fetch_inventory_error_handling w8
  have hf : fetchFailed w8 = true := by decide
  exact ⟨hf, h.2.1, (h.2.2 hf).1, (h.2.2 hf).2⟩

/-- C6: for a user without `*` in `allowedPOS`, `getPointsOfSaleForUser`
returns exactly the points of sale present both in the loaded inventory and
in `allowedPOS`; `getProductDetailsForUser` only ever returns a product found
by the lookup inside one of the user's allowed points of sale; and with no
current user or an empty `allowedPOS` the former returns the empty list and
the latter `null` for every identifier. -/
theorem inventory_access_control (user : User) (inv : Inventory) (identifier : String)
    (hns : "*" ∉ user.allowedPOS) :
    (∀ pos : String, pos ∈ getPointsOfSaleForUser (some user) inv ↔
        pos ∈ inv.map Prod.fst ∧ pos ∈ user.allowedPOS)
    ∧ (∀ p posr, getProductDetailsForUser (some user) inv identifier = some (p, posr) →
        posr ∈ user.allowedPOS ∧ getProductDetailsInPos inv posr identifier = some p)
    ∧ getPointsOfSaleForUser none inv = []
    ∧ getProductDetailsForUser none inv identifier = none
    ∧ (user.allowedPOS = [] →
        getPointsOfSaleForUser (some user) inv = []
        ∧ getProductDetailsForUser (some user) inv identifier = none) := by
  refine ⟨?_, ?_, rfl, rfl, ?_⟩
  · intro pos
    simp only [getPointsOfSaleForUser]
    by_cases hempty : user.allowedPOS = []
    · simp [hempty]
    · rw [if_neg hempty, if_neg hns]
      unfold getPointsOfSale
      simp [List.mem_filter, mem_sortStable]
  · intro p posr hsome
    simp only [getProductDetailsForUser] at hsome
    by_cases hempty : user.allowedPOS = []
    · simp [hempty] at hsome
    · rw [if_neg hempty] at hsome
      simp only [if_neg hns] at hsome
      obtain ⟨pos, hmem, heq⟩ := List.exists_of_findSome?_eq_some hsome
      rw [Option.map_eq_some'] at heq
      obtain ⟨q, hq, heq2⟩ := heq
      injection heq2 with hq1 hq2
      subst hq1; subst hq2
      exact ⟨hmem, hq⟩
  · intro hempty
    constructor <;> simp [getPointsOfSaleForUser, getProductDetailsForUser, hempty]

/-- C6 witness: the concrete restricted user sees `Main Store` (present in
both the inventory and the allowed list). -/
theorem inventory_access_control_witness :
    ("*" ∉ user6.allowedPOS)
    ∧ ("Main Store" ∈ getPointsOfSaleForUser (some user6) inv6 ↔
        "Main Store" ∈ inv6.map Prod.fst ∧ "Main Store" ∈ user6.allowedPOS) :=
  ⟨by decide, (inventory_access_control user6 inv6 "x" (by decide)).1 "Main Store"⟩

/-- Pointwise-equal functions give equal `findSome?` results. -/
theorem findSome?_congrOn {α β : Type _} {f g : α → Option β} :
    ∀ {l : List α}, (∀ a ∈ l, f a = g a) → l.findSome? f = l.findSome? g := by
  intro l
  induction l with
  | nil => intro _; rfl
  | cons a l ih =>
    intro hfg
    simp only [List.findSome?_cons, hfg a (List.mem_cons_self a l)]
    cases hga : g a with
    | none => exact ih (fun x hx => hfg x (List.mem_cons_of_mem a hx))
    | some b => rfl

/-- With duplicate-free keys (JS object keys are unique), association lookup
of the key of a member returns that member's value. -/
theorem alGet_of_nodup {β : Type} {l : List (String × β)} {pr : String × β}
    (hnd : (l.map Prod.fst).Nodup) (hmem : pr ∈ l) : alGet pr.1 l = some pr.2 := by
  induction l with
  | nil => cases hmem
  | cons q t ih =>
    simp only [List.map_cons, List.nodup_cons] at hnd
    rcases List.mem_cons.mp hmem with heq | htail
    · subst heq; simp [alGet]
    · have hne : q.1 ≠ pr.1 := by
        intro hk
        exact hnd.1 (hk ▸ List.mem_map_of_mem Prod.fst htail)
      simp only [alGet, if_neg hne]
      exact ih hnd.2 htail

/-- C7: product lookup matches exactly on barcode or case-insensitively on
name; `getProductDetailsInPos` returns the first such product of the point of
sale (brands in order, products in order; `null` when the POS is absent or
nothing matches), and `getProductDetails` returns the match from the first
point of sale in enumeration order that contains one, augmented with that
point of sale's name (`null` only when no point of sale matches).  No barcode
uniqueness is assumed: duplicates resolve to whichever match occurs first. -/
theorem product_lookup_first_match (inv : Inventory) (pos identifier : String)
    (hkeys : (inv.map Prod.fst).Nodup) :
    getProductDetailsInPos inv pos identifier = specFirstMatchInPos inv pos identifier
    ∧ getProductDetails inv identifier = specFirstMatchAnywhere inv identifier := by
  constructor
  · unfold getProductDetailsInPos specFirstMatchInPos posProductsFlat
    cases halGet : alGet pos inv with
    | none => simp
    | some brands => simp [List.find?_flatMap]
  · unfold getProductDetails specFirstMatchAnywhere
    apply findSome?_congrOn
    intro pr hpr
    have : getProductDetailsInPos inv pr.1 identifier
        = (pr.2.flatMap Prod.snd).find? (matchesIdentifier identifier) := by
      unfold getProductDetailsInPos
      rw [alGet_of_nodup hkeys hpr]
      simp [List.find?_flatMap]
    rw [this]

/-- C7 witness: concrete duplicate-free inventory, looked up by name. -/
theorem product_lookup_first_match_witness :
    (inv7.map Prod.fst).Nodup
    ∧ getProductDetails inv7 "acond" = specFirstMatchAnywhere inv7 "acond" :=
  ⟨by decide, (product_lookup_first_match inv7 "Main Store" "acond" (by decide)).2⟩

/-- Unpacking of the `itemsToProcess` filter condition. -/
theorem salesItemValid_iff (it : SaleItemForm) :
    salesItemValid it = true ↔
      it.isKnownProduct = true ∧ it.barcode ≠ "" ∧ strTrim it.barcode ≠ ""
        ∧ it.productName ≠ "" ∧ strTrim it.productName ≠ "" ∧ 0 < it.quantity := by
  simp [salesItemValid, and_assoc]

/-- The schema's second `refine`: a form the schema accepts has no known
item whose quantity exceeds its `stock` snapshot. -/
theorem salesFormSchemaOk_stock {data : SalesFormValues}
    (h : salesFormSchemaOk data = true) :
    ∀ it ∈ data.items, it.isKnownProduct = true → it.quantity ≤ it.stock := by
  intro it hit hk
  unfold salesFormSchemaOk at h
  simp only [Bool.and_eq_true] at h
  have hx := List.all_eq_true.mp h.2 it hit
  rw [hk] at hx
  simpa using hx

/-- C4: under the invariant the selection handlers establish — a known
item's `stock` field is the snapshot of the stock recorded for the item's
barcode in the selected point of sale (the handlers copy `barcode` and
`stock: productInfo.quantity` from one inventory product) — a sale is POSTed
to `/api/php/record_sale.php` only when `zodResolver(salesFormSchema)`
accepted the form and every processed item is a known product with non-empty
barcode and name and quantity at least 1 not exceeding the stock recorded for
its barcode; when a known item's quantity exceeds that stock, or no valid
item remains, no request is sent and the submission stops with an error
(schema field errors or an error toast) instead. -/
theorem sales_submit_guard (u : Option User) (inv : Inventory) (data : SalesFormValues)
    (hsnap : ∀ it ∈ data.items, it.isKnownProduct = true →
        barcodeStockInPos inv data.pointOfSale it.barcode = some it.stock) :
    (∀ pl, salesHandleSubmit u inv data = .posted pl →
        salesFormSchemaOk data = true
        ∧ itemsToProcess data ≠ []
        ∧ pl.items = (itemsToProcess data).map (fun it =>
            { barcode := it.barcode, productName := it.productName,
              brandName := it.brandName, quantity := it.quantity, price := it.price })
        ∧ data.pointOfSale ∈ getPointsOfSaleForUser u inv
        ∧ (∀ it ∈ itemsToProcess data,
            it.isKnownProduct = true ∧ it.barcode ≠ "" ∧ it.productName ≠ ""
            ∧ 1 ≤ it.quantity
            ∧ barcodeStockInPos inv data.pointOfSale it.barcode = some it.stock
            ∧ it.quantity ≤ it.stock))
    ∧ (itemsToProcess data = [] → ∀ pl, salesHandleSubmit u inv data ≠ .posted pl)
    ∧ (∀ it ∈ data.items, it.isKnownProduct = true →
        (∀ s, barcodeStockInPos inv data.pointOfSale it.barcode = some s →
            s < it.quantity) →
        ∀ pl, salesHandleSubmit u inv data ≠ .posted pl) := by
  refine ⟨?_, ?_, ?_⟩
  · intro pl hp
    unfold salesHandleSubmit at hp
    by_cases hschema : salesFormSchemaOk data = true
    · rw [if_pos hschema] at hp
      cases u with
      | none => exact absurd hp (by simp [salesOnSubmit])
      | some user =>
        simp only [salesOnSubmit] at hp
        by_cases hacc : getPointsOfSaleForUser (some user) inv = []
            ∨ data.pointOfSale ∉ getPointsOfSaleForUser (some user) inv
        · rw [if_pos hacc] at hp; exact absurd hp (by simp)
        · rw [if_neg hacc] at hp
          push_neg at hacc
          by_cases hempty : itemsToProcess data = []
          · rw [if_pos hempty] at hp; exact absurd hp (by simp)
          · rw [if_neg hempty] at hp
            cases hsf : firstStockFailure inv data.pointOfSale (itemsToProcess data) with
            | some pair => rw [hsf] at hp; exact absurd hp (by simp)
            | none =>
              rw [hsf] at hp
              injection hp with hpl
              subst hpl
              refine ⟨hschema, hempty, rfl, hacc.2, ?_⟩
              intro it hit
              have hmemit : it ∈ data.items := (List.mem_filter.mp hit).1
              have hvalid := (salesItemValid_iff it).mp (List.mem_filter.mp hit).2
              have hq := hvalid.2.2.2.2.2
              exact ⟨hvalid.1, hvalid.2.1, hvalid.2.2.2.1, by omega,
                hsnap it hmemit hvalid.1,
                salesFormSchemaOk_stock hschema it hmemit hvalid.1⟩
    · rw [if_neg hschema] at hp
      exact absurd hp (by simp)
  · intro hempty pl hp
    unfold salesHandleSubmit at hp
    by_cases hschema : salesFormSchemaOk data = true
    · rw [if_pos hschema] at hp
      cases u with
      | none => exact absurd hp (by simp [salesOnSubmit])
      | some user =>
        simp only [salesOnSubmit] at hp
        by_cases hacc : getPointsOfSaleForUser (some user) inv = []
            ∨ data.pointOfSale ∉ getPointsOfSaleForUser (some user) inv
        · rw [if_pos hacc] at hp; exact absurd hp (by simp)
        · rw [if_neg hacc, if_pos hempty] at hp; exact absurd hp (by simp)
    · rw [if_neg hschema] at hp
      exact absurd hp (by simp)
  · intro it hmemit hknown hexceed pl hp
    unfold salesHandleSubmit at hp
    by_cases hschema : salesFormSchemaOk data = true
    · have hlt := hexceed it.stock (hsnap it hmemit hknown)
      have hle := salesFormSchemaOk_stock hschema it hmemit hknown
      omega
    · rw [if_neg hschema] at hp
      exact absurd hp (by simp)

/-- C4 witness: a concrete schema-valid sale satisfying the snapshot
invariant is posted, with a non-empty processed-item list from an accessible
point of sale. -/
theorem sales_submit_guard_witness :
    itemsToProcess data4 ≠ []
    ∧ data4.pointOfSale ∈ getPointsOfSaleForUser (some user4) inv4 := by
  have h := (sales_submit_guard (some user4) inv4 data4 (by decide)).1 payload4 (by decide)
  exact ⟨h.2.1, h.2.2.2.1⟩

/-- C5: a supplier stock entry is POSTed to `/api/php/add_supplier_entry.php`
only after the zod schema accepted the form, with a payload containing
exactly the form products having non-empty barcode, product name and brand
name and positive quantity; when no product qualifies, or the selected point
of sale is not among the current user's accessible ones, no request is
sent. -/
theorem supplier_submit_guard (urlOk : String → Bool) (u : Option User) (inv : Inventory)
    (data : SupplierFormValues) (now : String) :
    (∀ pl, suppliersHandleSubmit urlOk u inv data now = .posted pl →
        supplierFormSchemaOk urlOk data = true
        ∧ pl.products = (data.products.filter supplierQualifies).map
            (supplierPayloadOf inv data.pointOfSale)
        ∧ pl.products ≠ []
        ∧ data.pointOfSale ∈ getPointsOfSaleForUser u inv
        ∧ (∀ q ∈ data.products.filter supplierQualifies,
            q.barcode ≠ "" ∧ q.productName ≠ "" ∧ q.brandName ≠ "" ∧ 0 < q.quantity))
    ∧ (data.products.filter supplierQualifies = [] →
        ∀ pl, suppliersHandleSubmit urlOk u inv data now ≠ .posted pl)
    ∧ (data.pointOfSale ∉ getPointsOfSaleForUser u inv →
        ∀ pl, suppliersHandleSubmit urlOk u inv data now ≠ .posted pl) := by
  refine ⟨?_, ?_, ?_⟩
  · intro pl hp
    unfold suppliersHandleSubmit at hp
    by_cases hschema : supplierFormSchemaOk urlOk data = true
    · rw [if_pos hschema] at hp
      cases u with
      | none => exact absurd hp (by simp [suppliersOnSubmit])
      | some user =>
        simp only [suppliersOnSubmit] at hp
        by_cases hacc : getPointsOfSaleForUser (some user) inv = []
            ∨ data.pointOfSale ∉ getPointsOfSaleForUser (some user) inv
        · rw [if_pos hacc] at hp; exact absurd hp (by simp)
        · rw [if_neg hacc] at hp
          push_neg at hacc
          by_cases hempty : (data.products.filter supplierQualifies).map
              (supplierPayloadOf inv data.pointOfSale) = []
          · rw [if_pos hempty] at hp; exact absurd hp (by simp)
          · rw [if_neg hempty] at hp
            injection hp with hpl
            subst hpl
            refine ⟨hschema, rfl, hempty, hacc.2, ?_⟩
            intro q hq
            have hqual := (List.mem_filter.mp hq).2
            simp only [supplierQualifies, Bool.and_eq_true, Bool.not_eq_eq_eq_not,
              Bool.not_true, beq_eq_false_iff_ne, ne_eq, decide_eq_true_eq] at hqual
            exact ⟨hqual.1.1.1, hqual.1.1.2, hqual.1.2, hqual.2⟩
    · rw [if_neg hschema] at hp; exact absurd hp (by simp)
  · intro hempty pl hp
    unfold suppliersHandleSubmit at hp
    by_cases hschema : supplierFormSchemaOk urlOk data = true
    · rw [if_pos hschema] at hp
      cases u with
      | none => exact absurd hp (by simp [suppliersOnSubmit])
      | some user =>
        simp only [suppliersOnSubmit] at hp
        by_cases hacc : getPointsOfSaleForUser (some user) inv = []
            ∨ data.pointOfSale ∉ getPointsOfSaleForUser (some user) inv
        · rw [if_pos hacc] at hp; exact absurd hp (by simp)
        · rw [if_neg hacc, if_pos (by rw [hempty]; rfl)] at hp
          exact absurd hp (by simp)
    · rw [if_neg hschema] at hp; exact absurd hp (by simp)
  · intro hnacc pl hp
    unfold suppliersHandleSubmit at hp
    by_cases hschema : supplierFormSchemaOk urlOk data = true
    · rw [if_pos hschema] at hp
      cases u with
      | none => exact absurd hp (by simp [suppliersOnSubmit])
      | some user =>
        simp only [suppliersOnSubmit] at hp
        rw [if_pos (Or.inr hnacc)] at hp
        exact absurd hp (by simp)
    · rw [if_neg hschema] at hp; exact absurd hp (by simp)

/-- C5 witness: a concrete schema-valid entry is posted for an accessible
point of sale with exactly the qualifying product line. -/
theorem supplier_submit_guard_witness :
    supplierFormSchemaOk (fun _ => true) data5 = true
    ∧ payload5.products ≠ []
    ∧ data5.pointOfSale ∈ getPointsOfSaleForUser (some user5) inv5 := by
  have h := (supplier_submit_guard (fun _ => true) (some user5) inv5 data5
    "2024-01-01T00:00:00Z").1 payload5 (by decide)
  exact ⟨h.1, h.2.2.1, h.2.2.2.1⟩

/-- C9 (amended): the supplier-entry endpoint is atomic — it wraps the
supplier entry, product catalogue and per-POS stock writes in one database
transaction and rolls back on any error, so whenever the request fails (400
or 500) the persisted state is left exactly unchanged, never partially
updated. -/
theorem supplier_entry_rollback_atomic (db : DB) (payload : SupplierEntryPayload)
    (entryId dateTime : String) :
    (∀ msg, (addSupplierEntryHandler db payload entryId dateTime).2 = .serverError msg →
        (addSupplierEntryHandler db payload entryId dateTime).1 = db)
    ∧ (∀ msg, (addSupplierEntryHandler db payload entryId dateTime).2 = .badRequest msg →
        (addSupplierEntryHandler db payload entryId dateTime).1 = db) := by
  unfold addSupplierEntryHandler
  split
  · exact ⟨fun _ _ => rfl, fun _ _ => rfl⟩
  · cases hrun : runSupplierEntry db payload entryId dateTime with
    | ok db2 =>
      refine ⟨fun msg h => ?_, fun msg h => ?_⟩ <;> simp at h
    | error m => exact ⟨fun _ _ => rfl, fun _ _ => rfl⟩

/-- C9 witness: a concrete failing request (its second product line is
invalid) returns a 500 and leaves the database unchanged. -/
theorem supplier_entry_rollback_atomic_witness :
    (addSupplierEntryHandler db9 payload9 "supplier-1" "2024-01-01 00:00:00").2
      = .serverError ("Error al procesar la entrada del proveedor: " ++
          "Datos de producto invalidos para el codigo de barras: 222")
    ∧ (addSupplierEntryHandler db9 payload9 "supplier-1" "2024-01-01 00:00:00").1 = db9 := by
  have herr : (addSupplierEntryHandler db9 payload9 "supplier-1" "2024-01-01 00:00:00").2
      = .serverError ("Error al procesar la entrada del proveedor: " ++
          "Datos de producto invalidos para el codigo de barras: 222") := by decide
  exact ⟨herr,
    (supplier_entry_rollback_atomic db9 payload9 "supplier-1" "2024-01-01 00:00:00").1 _ herr⟩

/-- C9 counterexample: the claim says a failure partway through processing
the product list may leave the persisted state partially updated; on the
concrete run whose first product line succeeds and whose second fails, the
endpoint rolls the transaction back and the database is exactly unchanged —
while the successful prefix alone demonstrably writes to it. -/
theorem supplier_entry_partial_update_counterexample :
    (addSupplierEntryHandler db9 payload9 "supplier-1" "t").1 = db9
    ∧ (addSupplierEntryHandler db9 payload9 "supplier-1" "t").2
        = .serverError ("Error al procesar la entrada del proveedor: " ++
            "Datos de producto invalidos para el codigo de barras: 222")
    ∧ (addSupplierEntryHandler db9 payload9good "supplier-1" "t").1 ≠ db9
    ∧ (addSupplierEntryHandler db9 payload9good "supplier-1" "t").2 = .created "supplier-1" := by
  decide

/-! ### C1 proof layer: the chart map as an association list -/

/-- Setting a key already bound to the same value is a no-op. -/
theorem alSet_self_of_const {κ β : Type} [DecidableEq κ] {v : β} {k : κ} :
    ∀ {l : List (κ × β)}, (∀ p ∈ l, p.2 = v) → k ∈ l.map Prod.fst → alSet k v l = l := by
  intro l
  induction l with
  | nil => intro _ hk; cases hk
  | cons p t ih =>
    intro hv hk
    by_cases hpk : p.1 = k
    · have hp2 : p.2 = v := hv p (List.mem_cons_self p t)
      simp only [alSet, if_pos hpk]
      rw [← hpk, ← hp2]
    · simp only [List.map_cons, List.mem_cons] at hk
      rcases hk with hk | hk
      · exact absurd hk.symm hpk
      · simp only [alSet, if_neg hpk]
        rw [ih (fun q hq => hv q (List.mem_cons_of_mem p hq)) hk]

/-- Setting an absent key appends it. -/
theorem alSet_append_of_not_mem {κ β : Type} [DecidableEq κ] {v : β} {k : κ} :
    ∀ {l : List (κ × β)}, k ∉ l.map Prod.fst → alSet k v l = l ++ [(k, v)] := by
  intro l
  induction l with
  | nil => intro _; rfl
  | cons p t ih =>
    intro hk
    simp only [List.map_cons, List.mem_cons] at hk
    push_neg at hk
    have hne : ¬(p.1 = k) := fun h => hk.1 h.symm
    simp only [alSet, if_neg hne]
    rw [ih hk.2]
    rfl

/-- `keyDedupAux` only consults membership of the `seen` accumulator. -/
theorem keyDedupAux_congr {κ : Type} [DecidableEq κ] {s t : List κ}
    (hst : ∀ x, x ∈ s ↔ x ∈ t) : ∀ (l : List κ), keyDedupAux s l = keyDedupAux t l := by
  intro l
  induction l generalizing s t with
  | nil => rfl
  | cons k ks ih =>
    simp only [keyDedupAux]
    by_cases hk : k ∈ s
    · rw [if_pos hk, if_pos ((hst k).mp hk)]
      exact ih hst
    · rw [if_neg hk, if_neg (fun h => hk ((hst k).mpr h))]
      have : ∀ x, x ∈ k :: s ↔ x ∈ k :: t := by
        intro x; simp [hst x]
      rw [ih this]

/-- Membership in the deduplicated key list. -/
theorem mem_keyDedupAux {κ : Type} [DecidableEq κ] {x : κ} :
    ∀ {seen l : List κ}, x ∈ keyDedupAux seen l ↔ x ∈ l ∧ x ∉ seen := by
  intro seen l
  induction l generalizing seen with
  | nil => simp [keyDedupAux]
  | cons k ks ih =>
    simp only [keyDedupAux]
    by_cases hk : k ∈ seen
    · rw [if_pos hk, ih]
      constructor
      · rintro ⟨hx, hxs⟩
        exact ⟨List.mem_cons_of_mem k hx, hxs⟩
      · rintro ⟨hx, hxs⟩
        rcases List.mem_cons.mp hx with hx | hx
        · exact absurd (hx ▸ hk) hxs
        · exact ⟨hx, hxs⟩
    · rw [if_neg hk]
      constructor
      · intro hmem
        rcases List.mem_cons.mp hmem with hx | hx
        · refine ⟨by rw [hx]; exact List.mem_cons_self k ks, by rw [hx]; exact hk⟩
        · obtain ⟨h1, h2⟩ := ih.mp hx
          refine ⟨List.mem_cons_of_mem k h1, ?_⟩
          intro hxseen
          exact h2 (List.mem_cons_of_mem k hxseen)
      · rintro ⟨hx, hxs⟩
        rcases List.mem_cons.mp hx with hx | hx
        · rw [hx]; exact List.mem_cons_self k _
        · by_cases hxk : x = k
          · rw [hxk]; exact List.mem_cons_self k _
          · refine List.mem_cons_of_mem k (ih.mpr ⟨hx, ?_⟩)
            intro hxk2
            rcases List.mem_cons.mp hxk2 with h | h
            · exact hxk h
            · exact hxs h

/-- The deduplicated key list has no duplicates. -/
theorem nodup_keyDedupAux {κ : Type} [DecidableEq κ] :
    ∀ (seen l : List κ), (keyDedupAux seen l).Nodup := by
  intro seen l
  induction l generalizing seen with
  | nil => exact List.nodup_nil
  | cons k ks ih =>
    simp only [keyDedupAux]
    by_cases hk : k ∈ seen
    · rw [if_pos hk]; exact ih seen
    · rw [if_neg hk]
      refine List.nodup_cons.mpr ⟨?_, ih (k :: seen)⟩
      intro hmem
      exact (mem_keyDedupAux.mp hmem).2 (List.mem_cons_self k seen)

/-- Zero-filling the chart map: folding `alSet k 0` over a key list starting
from an all-zero accumulator appends one zero entry per fresh key. -/
theorem foldl_alSet_zero {κ : Type} [DecidableEq κ] :
    ∀ (ks : List κ) (acc : List (κ × Int)), (∀ p ∈ acc, p.2 = 0) →
      ks.foldl (fun mp k => alSet k 0 mp) acc
        = acc ++ (keyDedupAux (acc.map Prod.fst) ks).map (fun k => (k, (0 : Int))) := by
  intro ks
  induction ks with
  | nil => intro acc _; simp [keyDedupAux]
  | cons k ks ih =>
    intro acc hacc
    simp only [List.foldl_cons, keyDedupAux]
    by_cases hk : k ∈ acc.map Prod.fst
    · rw [alSet_self_of_const hacc hk, if_pos hk]
      exact ih acc hacc
    · rw [alSet_append_of_not_mem hk, if_neg hk]
      have hacc2 : ∀ p ∈ acc ++ [(k, (0 : Int))], p.2 = 0 := by
        intro p hp
        rcases List.mem_append.mp hp with hp | hp
        · exact hacc p hp
        · simp only [List.mem_singleton] at hp
          rw [hp]
      rw [ih (acc ++ [(k, 0)]) hacc2]
      have hseen : ∀ x, x ∈ (acc ++ [(k, (0 : Int))]).map Prod.fst ↔ x ∈ k :: acc.map Prod.fst := by
        intro x
        simp [or_comm]
      rw [keyDedupAux_congr hseen ks]
      simp [keyDedupAux]

/-- Mapping a keyed update over entries without that key changes nothing. -/
theorem map_if_eq_self {κ β : Type} [DecidableEq κ] {k : κ} {g : β → β} :
    ∀ {mp : List (κ × β)}, k ∉ mp.map Prod.fst →
      mp.map (fun p => if p.1 = k then (p.1, g p.2) else p) = mp := by
  intro mp
  induction mp with
  | nil => intro _; rfl
  | cons p t ih =>
    intro hk
    simp only [List.map_cons, List.mem_cons] at hk
    push_neg at hk
    have hne : ¬(p.1 = k) := fun h => hk.1 h.symm
    simp only [List.map_cons, if_neg hne]
    rw [ih hk.2]

/-- A keyed update preserves the key list. -/
theorem keys_map_if {κ β : Type} [DecidableEq κ] {k : κ} {g : β → β} (mp : List (κ × β)) :
    (mp.map (fun p => if p.1 = k then (p.1, g p.2) else p)).map Prod.fst = mp.map Prod.fst := by
  rw [List.map_map]
  apply List.map_congr_left
  intro p _
  by_cases h : p.1 = k <;> simp [h]

/-- On a duplicate-free map containing the key, `bumpKey` is the pointwise
update adding `q` at that key. -/
theorem bumpKey_eq_map {k : Nat × Nat} {q : Int} :
    ∀ {mp : List ((Nat × Nat) × Int)}, (mp.map Prod.fst).Nodup → k ∈ mp.map Prod.fst →
      bumpKey k q mp = mp.map (fun p => if p.1 = k then (p.1, p.2 + q) else p) := by
  intro mp
  induction mp with
  | nil => intro _ hk; cases hk
  | cons p t ih =>
    intro hnd hk
    simp only [List.map_cons, List.nodup_cons] at hnd
    by_cases hpk : p.1 = k
    · simp only [bumpKey, alGet, alSet, if_pos hpk, Option.getD_some, List.map_cons]
      have ht : t.map (fun p => if p.1 = k then (p.1, p.2 + q) else p) = t :=
        @map_if_eq_self _ _ _ _ (fun v => v + q) t (hpk ▸ hnd.1)
      rw [ht, hpk]
    · simp only [List.map_cons, List.mem_cons] at hk
      rcases hk with hk | hk
      · exact absurd hk.symm hpk
      · have hstep : bumpKey k q (p :: t) = p :: bumpKey k q t := by
          simp only [bumpKey, alGet, alSet, if_neg hpk]
        rw [hstep, ih hnd.2 hk]
        simp only [List.map_cons, if_neg hpk]

/-- Folding `bumpKey` over increments whose keys all live in a duplicate-free
map accumulates, per key, the sum of its increments. -/
theorem foldl_bumpKey :
    ∀ (incs : List ((Nat × Nat) × Int)) (mp : List ((Nat × Nat) × Int)),
      (mp.map Prod.fst).Nodup →
      (∀ kq ∈ incs, kq.1 ∈ mp.map Prod.fst) →
      incs.foldl (fun mp kq => bumpKey kq.1 kq.2 mp) mp
        = mp.map (fun p =>
            (p.1, p.2 + ((incs.filter (fun kq => kq.1 = p.1)).map Prod.snd).sum)) := by
  intro incs
  induction incs with
  | nil =>
    intro mp _ _
    simp
  | cons kq incs ih =>
    intro mp hnd hkeys
    simp only [List.foldl_cons]
    have hkm := @keys_map_if (Nat × Nat) Int _ kq.1 (fun v => v + kq.2) mp
    rw [bumpKey_eq_map hnd (hkeys kq (List.mem_cons_self _ _))]
    rw [ih _ (by rw [hkm]; exact hnd)
        (fun r hr => by rw [hkm]; exact hkeys r (List.mem_cons_of_mem _ hr))]
    rw [List.map_map]
    apply List.map_congr_left
    intro p _
    by_cases hpk : p.1 = kq.1
    · simp only [Function.comp_apply, if_pos hpk, List.filter_cons, hpk]
      simp [Prod.mk.injEq]
      omega
    · have hne : kq.1 ≠ p.1 := fun h => hpk h.symm
      simp only [Function.comp_apply, if_neg hpk, List.filter_cons]
      simp [hne]

/-- The per-item fold of the chart effect is the `bumpKey` fold over the
item increments. -/
theorem chart_items_foldl (bc : String) (dt : Date) :
    ∀ (items : List SaleRecordItem) (mp : List ((Nat × Nat) × Int)),
      items.foldl (fun mp item =>
          if item.barcode = bc then
            alSet (dayKey dt) (((alGet (dayKey dt) mp).getD 0) + item.quantity) mp
          else mp) mp
        = (items.filterMap (fun item =>
            if item.barcode = bc then some (dayKey dt, item.quantity) else none)).foldl
            (fun mp kq => bumpKey kq.1 kq.2 mp) mp := by
  intro items
  induction items with
  | nil => intro mp; rfl
  | cons it items ih =>
    intro mp
    by_cases hb : it.barcode = bc
    · simp only [List.foldl_cons, List.filterMap_cons, if_pos hb]
      exact ih _
    · simp only [List.foldl_cons, List.filterMap_cons, if_neg hb]
      exact ih mp

/-- The per-sale fold of the chart effect is the `bumpKey` fold over all the
increments of the sale list. -/
theorem chart_sales_foldl (bc : String) (startDate endDate : Date) :
    ∀ (sales : List SaleRecord) (mp : List ((Nat × Nat) × Int)),
      sales.foldl (fun mp sale =>
          match sale.dateTime with
          | none => mp
          | some saleDate =>
            if Date.le startDate saleDate ∧ Date.le saleDate endDate then
              sale.items.foldl (fun mp item =>
                if item.barcode = bc then
                  alSet (dayKey saleDate)
                    (((alGet (dayKey saleDate) mp).getD 0) + item.quantity) mp
                else mp) mp
            else mp) mp
        = (chartIncs bc startDate endDate sales).foldl
            (fun mp kq => bumpKey kq.1 kq.2 mp) mp := by
  intro sales
  induction sales with
  | nil => intro mp; rfl
  | cons sale sales ih =>
    intro mp
    simp only [List.foldl_cons, chartIncs, List.flatMap_cons, List.foldl_append]
    have hrest := ih ((saleIncs bc startDate endDate sale).foldl
      (fun mp kq => bumpKey kq.1 kq.2 mp) mp)
    simp only [chartIncs] at hrest
    rw [← hrest]
    congr 1
    cases hdt : sale.dateTime with
    | none => simp [saleIncs, hdt]
    | some dt =>
      simp only [saleIncs, hdt]
      by_cases hin : Date.le startDate dt ∧ Date.le dt endDate
      · rw [if_pos hin, if_pos hin]
        exact chart_items_foldl bc dt sale.items mp
      · rw [if_neg hin, if_neg hin]
        rfl

/-- Item-level increment sums: when the sale's day label is the selected one,
the filtered increments sum to the quantities of the barcode-matching
items. -/
theorem items_filterMap_filter_sum (bc : String) (dt : Date) (k : Nat × Nat)
    (hk : dayKey dt = k) :
    ∀ (items : List SaleRecordItem),
      (((items.filterMap (fun item =>
          if item.barcode = bc then some (dayKey dt, item.quantity) else none)).filter
          (fun kq => kq.1 = k)).map Prod.snd).sum
        = ((items.filter (fun it => it.barcode = bc)).map (fun it => it.quantity)).sum := by
  intro items
  induction items with
  | nil => rfl
  | cons it items ihi =>
    by_cases hb : it.barcode = bc
    · simp only [List.filterMap_cons, if_pos hb, List.filter_cons, hk] at ihi ⊢
      simp [hb, ihi]
    · simp only [List.filterMap_cons, if_neg hb, List.filter_cons, hk] at ihi ⊢
      simp [hb, ihi]

/-- Per-key increment sums of one sale: everything lands on the sale's day
label and adds up to the sale's matching quantity. -/
theorem saleIncs_filter_sum (bc : String) (s e : Date) (k : Nat × Nat) (sale : SaleRecord) :
    (((saleIncs bc s e sale).filter (fun kq => kq.1 = k)).map Prod.snd).sum
      = (match sale.dateTime with
         | some dt =>
           if (decide (Date.le s dt ∧ Date.le dt e) && decide (dayKey dt = k)) = true
           then saleQuantityFor bc sale else 0
         | none => 0) := by
  cases hdt : sale.dateTime with
  | none => simp [saleIncs, hdt]
  | some dt =>
    simp only [saleIncs, hdt]
    by_cases hin : Date.le s dt ∧ Date.le dt e
    · rw [if_pos hin]
      simp only [decide_eq_true hin, Bool.true_and]
      by_cases hk : dayKey dt = k
      · simp only [decide_eq_true hk, if_pos rfl]
        rw [items_filterMap_filter_sum bc dt k hk sale.items]
        rfl
      · simp only [decide_eq_false hk, Bool.and_false]
        have hall : ((sale.items.filterMap (fun item =>
            if item.barcode = bc then some (dayKey dt, item.quantity) else none)).filter
            (fun kq => kq.1 = k)) = [] := by
          apply List.filter_eq_nil_iff.mpr
          intro kq hkq
          obtain ⟨it, _, hpick⟩ := List.mem_filterMap.mp hkq
          by_cases hb : it.barcode = bc
          · rw [if_pos hb] at hpick
            injection hpick with hkq2
            simp [← hkq2, hk]
          · rw [if_neg hb] at hpick
            cases hpick
        rw [hall]
        simp
    · rw [if_neg hin]
      simp [hin]

/-- Unfolding one sale record of the specification's per-day sum. -/
theorem specDaySales_cons (bc : String) (s e : Date) (k : Nat × Nat)
    (sale : SaleRecord) (sales : List SaleRecord) :
    specDaySales bc s e (sale :: sales) k
      = (match sale.dateTime with
         | some dt =>
           if (decide (Date.le s dt ∧ Date.le dt e) && decide (dayKey dt = k)) = true
           then saleQuantityFor bc sale else 0
         | none => 0) + specDaySales bc s e sales k := by
  unfold specDaySales
  rw [List.filter_cons]
  cases hdt : sale.dateTime with
  | none => simp [hdt]
  | some dt =>
    simp only [hdt]
    split
    · rename_i h
      simp [h]
    · rename_i h
      simp [h]

/-- Per-key increment sums over a sale list equal the specification's per-day
sums. -/
theorem chartIncs_filter_sum (bc : String) (s e : Date) (k : Nat × Nat) :
    ∀ (sales : List SaleRecord),
      (((chartIncs bc s e sales).filter (fun kq => kq.1 = k)).map Prod.snd).sum
        = specDaySales bc s e sales k := by
  intro sales
  induction sales with
  | nil => rfl
  | cons sale sales ih =>
    simp only [chartIncs, List.flatMap_cons, List.filter_append, List.map_append,
      List.sum_append]
    have hsale := saleIncs_filter_sum bc s e k sale
    simp only [chartIncs] at ih
    rw [hsale, ih, specDaySales_cons]

/-! ### C1 proof layer: calendar facts -/

/-- Every month has at least one day. -/
theorem daysInMonth_pos (y m : Nat) : 1 ≤ daysInMonth y m := by
  unfold daysInMonth
  split
  · split <;> omega
  · split <;> omega

/-- Every month has at most 31 days. -/
theorem daysInMonth_le_31 (y m : Nat) : daysInMonth y m ≤ 31 := by
  unfold daysInMonth
  split
  · split <;> omega
  · split <;> omega

/-- The successor of a valid date is valid. -/
theorem Date.valid_nextDay {a : Date} (h : a.Valid) : a.nextDay.Valid := by
  obtain ⟨h1, h2, h3, h4⟩ := h
  unfold Date.nextDay
  split
  · rename_i hlt
    unfold Date.Valid
    dsimp only
    omega
  · split
    · rename_i hm
      have hp := daysInMonth_pos a.y (a.m + 1)
      unfold Date.Valid
      dsimp only
      omega
    · have hp := daysInMonth_pos (a.y + 1) 1
      unfold Date.Valid
      dsimp only
      omega

/-- The successor of a date is a midnight. -/
theorem Date.nextDay_ms (a : Date) : a.nextDay.ms = 0 := by
  unfold Date.nextDay
  split
  · rfl
  · split
    · rfl
    · rfl

/-- The weight measure strictly increases along `nextDay` on valid dates. -/
theorem dateWeight_lt_nextDay {a : Date} (h : a.Valid) :
    dateWeight a < dateWeight a.nextDay := by
  obtain ⟨h1, h2, h3, h4⟩ := h
  have hd31 := daysInMonth_le_31 a.y a.m
  unfold Date.nextDay dateWeight
  split
  · dsimp only
    omega
  · split
    · dsimp only
      omega
    · dsimp only
      omega

/-- The weight measure is monotone along the date order on valid dates. -/
theorem dateWeight_mono {a b : Date} (ha : a.Valid) (hb : b.Valid) (hle : Date.le a b) :
    dateWeight a ≤ dateWeight b := by
  obtain ⟨ha1, ha2, ha3, ha4⟩ := ha
  obtain ⟨hb1, hb2, hb3, hb4⟩ := hb
  have hda := daysInMonth_le_31 a.y a.m
  have hdb := daysInMonth_le_31 b.y b.m
  unfold Date.le at hle
  unfold dateWeight
  omega

/-- Transitivity of the date order. -/
theorem Date.le_trans {a b c : Date} (h1 : Date.le a b) (h2 : Date.le b c) : Date.le a c := by
  unfold Date.le at *
  omega

/-- For valid midnights `a < x`, the successor of `a` still does not pass
`x`: `nextDay` steps to the immediately following calendar day. -/
theorem nextDay_le_of_lt {a x : Date} (ha : a.Valid) (hx : x.Valid)
    (hams : a.ms = 0) (hxms : x.ms = 0) (hle : Date.le a x) (hne : a ≠ x) :
    Date.le a.nextDay x := by
  obtain ⟨ha1, ha2, ha3, ha4⟩ := ha
  obtain ⟨hx1, hx2, hx3, hx4⟩ := hx
  have hne2 : ¬(a.y = x.y ∧ a.m = x.m ∧ a.d = x.d ∧ a.ms = x.ms) := by
    rintro ⟨e1, e2, e3, e4⟩
    apply hne
    cases a; cases x
    simp_all
  unfold Date.le at hle ⊢
  unfold Date.nextDay
  split
  · dsimp only
    omega
  · rename_i hge
    by_cases hym : a.y = x.y ∧ a.m = x.m
    · have hdimeq : daysInMonth x.y x.m = daysInMonth a.y a.m := by rw [hym.1, hym.2]
      split
      · dsimp only
        omega
      · dsimp only
        omega
    · split
      · dsimp only
        omega
      · dsimp only
        omega

/-- Completeness of the day enumeration: with enough fuel, every valid
midnight between the cursor and the interval end is emitted. -/
theorem mem_eachDayAux (e x : Date) (hx : x.Valid) (hxms : x.ms = 0)
    (hxe : Date.le x e) :
    ∀ (fuel : Nat) (cur : Date), cur.Valid → cur.ms = 0 → Date.le cur x →
      dateWeight x < dateWeight cur + fuel → x ∈ eachDayAux e fuel cur := by
  intro fuel
  induction fuel with
  | zero =>
    intro cur hc hcms hcx hw
    have := dateWeight_mono hc hx hcx
    omega
  | succ fuel ih =>
    intro cur hc hcms hcx hw
    unfold eachDayAux
    rw [if_pos (Date.le_trans hcx hxe)]
    by_cases heq : cur = x
    · rw [heq]
      exact List.mem_cons_self _ _
    · refine List.mem_cons_of_mem _
        (ih cur.nextDay (Date.valid_nextDay hc) (Date.nextDay_ms cur)
          (nextDay_le_of_lt hc hx hcms hxms hcx heq) ?_)
      have := dateWeight_lt_nextDay hc
      omega

/-- The start of a valid date's day is valid. -/
theorem startOfDay_valid {a : Date} (h : a.Valid) : a.startOfDay.Valid := h

/-- An instant is not before the start of its day. -/
theorem startOfDay_le (a : Date) : Date.le a.startOfDay a := by
  unfold Date.le Date.startOfDay
  dsimp only
  omega

/-- Taking the start of the day is monotone. -/
theorem startOfDay_le_mono {a b : Date} (h : Date.le a b) :
    Date.le a.startOfDay b.startOfDay := by
  unfold Date.le Date.startOfDay at *
  dsimp only at *
  omega

/-- The start of the day of any instant inside the interval is enumerated by
`eachDayOfInterval`. -/
theorem startOfDay_mem_eachDayOfInterval {s e dt : Date} (hs : s.Valid) (hdt : dt.Valid)
    (h1 : Date.le s dt) (h2 : Date.le dt e) :
    dt.startOfDay ∈ eachDayOfInterval s e := by
  unfold eachDayOfInterval
  apply mem_eachDayAux e dt.startOfDay (startOfDay_valid hdt) rfl
    (Date.le_trans (startOfDay_le dt) h2)
  · exact startOfDay_valid hs
  · rfl
  · exact startOfDay_le_mono h1
  · have hxy : dt.y ≤ e.y := by
      unfold Date.le at h2
      omega
    have hsy : s.y ≤ dt.y := by
      unfold Date.le at h1
      omega
    obtain ⟨hs1, hs2, hs3, hs4⟩ := hs
    obtain ⟨hd1, hd2, hd3, hd4⟩ := hdt
    have hd31 := daysInMonth_le_31 dt.y dt.m
    have hs31 := daysInMonth_le_31 s.y s.m
    unfold dateWeight Date.startOfDay
    dsimp only
    omega

/-- Every increment key of an in-range sale is one of the day labels of the
range. -/
theorem chartIncs_key_mem_labels {bc : String} {s e : Date} {sales : List SaleRecord}
    (hs : s.Valid)
    (hval : ∀ sa ∈ sales, ∀ dt, sa.dateTime = some dt → dt.Valid) :
    ∀ kq ∈ chartIncs bc s e sales, kq.1 ∈ specDayLabels s e := by
  intro kq hkq
  obtain ⟨sale, hsale, hinc⟩ := List.mem_flatMap.mp hkq
  unfold saleIncs at hinc
  cases hdt : sale.dateTime with
  | none =>
    simp only [hdt, List.not_mem_nil] at hinc
  | some dt =>
    simp only [hdt] at hinc
    by_cases hin : Date.le s dt ∧ Date.le dt e
    · rw [if_pos hin] at hinc
      obtain ⟨it, _, hpick⟩ := List.mem_filterMap.mp hinc
      have hkey : kq.1 = dayKey dt := by
        by_cases hb : it.barcode = bc
        · rw [if_pos hb] at hpick
          injection hpick with h
          rw [← h]
        · rw [if_neg hb] at hpick
          cases hpick
      rw [hkey]
      have hdtv := hval sale hsale dt hdt
      have hmem := startOfDay_mem_eachDayOfInterval hs hdtv hin.1 hin.2
      unfold specDayLabels
      rw [mem_keyDedupAux]
      refine ⟨?_, by simp⟩
      have hsame : dayKey dt = dayKey dt.startOfDay := rfl
      rw [hsame]
      exact List.mem_map_of_mem dayKey hmem
    · rw [if_neg hin] at hinc
      cases hinc

/-- C1 (amended): when a product barcode and a date range are selected and at
least one of the two sale histories is non-empty, the chart effect produces
exactly one data point per `dd/MM` day label of the range, carrying the summed
quantity of that barcode over the in-range sales falling on that label (0 for
days with no matching sale), sorted by month then day.  (The original claim
omits the non-emptiness condition: with both histories empty the code returns
no points at all instead of a zero point per day.) -/
theorem productSalesChart_matches_spec
    (bc : String) (rangeFrom : Date) (rangeTo : Option Date)
    (regular wholesale : List SaleRecord)
    (hbc : bc ≠ "")
    (hne : ¬(regular = [] ∧ wholesale = []))
    (hfrom : rangeFrom.Valid)
    (hval : ∀ sa ∈ regular ++ wholesale, ∀ dt, sa.dateTime = some dt → dt.Valid) :
    productSalesChartData (some bc) (some (rangeFrom, rangeTo)) regular wholesale
      = productChartSpec bc rangeFrom (rangeTo.getD rangeFrom) (regular ++ wholesale) := by
  have hguard : ¬(bc = "" ∨ (regular = [] ∧ wholesale = [])) := by
    rintro (h | h)
    · exact hbc h
    · exact hne h
  simp only [productSalesChartData]
  rw [if_neg hguard]
  have h0 : (eachDayOfInterval rangeFrom (rangeTo.getD rangeFrom)).foldl
      (fun mp day => alSet (dayKey day) 0 mp) ([] : List ((Nat × Nat) × Int))
      = (specDayLabels rangeFrom (rangeTo.getD rangeFrom)).map (fun k => (k, (0 : Int))) := by
    have h1 := List.foldl_map dayKey (fun mp (k : Nat × Nat) => alSet k (0 : Int) mp)
      (eachDayOfInterval rangeFrom (rangeTo.getD rangeFrom)) ([] : List ((Nat × Nat) × Int))
    rw [← h1, foldl_alSet_zero _ [] (by simp)]
    simp [specDayLabels]
  rw [h0, chart_sales_foldl bc rangeFrom (rangeTo.getD rangeFrom)]
  have hkeys : (((specDayLabels rangeFrom (rangeTo.getD rangeFrom)).map
      (fun k => (k, (0 : Int)))).map Prod.fst)
      = specDayLabels rangeFrom (rangeTo.getD rangeFrom) := by
    rw [List.map_map]
    exact List.map_id _
  have hnd : ((((specDayLabels rangeFrom (rangeTo.getD rangeFrom)).map
      (fun k => (k, (0 : Int)))).map Prod.fst)).Nodup := by
    rw [hkeys]
    unfold specDayLabels
    exact nodup_keyDedupAux [] _
  have hmem : ∀ kq ∈ chartIncs bc rangeFrom (rangeTo.getD rangeFrom) (regular ++ wholesale),
      kq.1 ∈ (((specDayLabels rangeFrom (rangeTo.getD rangeFrom)).map
        (fun k => (k, (0 : Int)))).map Prod.fst) := by
    rw [hkeys]
    exact chartIncs_key_mem_labels hfrom hval
  rw [foldl_bumpKey _ _ hnd hmem]
  unfold productChartSpec
  congr 1
  rw [List.map_map, List.map_map]
  apply List.map_congr_left
  intro k hk
  have hsum := chartIncs_filter_sum bc rangeFrom (rangeTo.getD rangeFrom) k
    (regular ++ wholesale)
  simp [Function.comp, hsum]

/-- C1 witness: a single sale of barcode 600100 on 5 January 2024 over the
range 5–6 January 2024 instantiates the amended chart claim. -/
theorem productSalesChart_matches_spec_witness :
    productSalesChartData (some "600100") (some (fromW, some toW)) [saleW] []
      = productChartSpec "600100" fromW ((some toW).getD fromW) ([saleW] ++ []) :=
  productSalesChart_matches_spec "600100" fromW (some toW) [saleW] []
    (by decide) (by simp) (by decide)
    (by
      intro sa hsa dt hdt
      simp only [List.append_nil, List.mem_singleton] at hsa
      subst hsa
      have h : some (⟨2024, 1, 5, 100⟩ : Date) = some dt := hdt
      injection h with h2
      rw [← h2]
      decide)

/-- C1 counterexample to the original claim: with a barcode and a range
selected but both sale histories empty, the code returns no chart points at
all, while the claimed behaviour yields a zero-valued point for each day of
the range. -/
theorem productSalesChart_empty_sales_counterexample :
    productSalesChartData (some "600100") (some (fromW, some toW)) [] [] = []
    ∧ productChartSpec "600100" fromW toW []
        = [ChartPoint.mk (5, 1) 0, ChartPoint.mk (6, 1) 0]
    ∧ ([] : List ChartPoint) ≠ [ChartPoint.mk (5, 1) 0, ChartPoint.mk (6, 1) 0] := by
  decide

/-! ### C10 proof layer: order facts and association-list facts -/

/-- The machine-word order agrees with the order of the represented numbers. -/
theorem uint32_lt_iff {a b : UInt32} : a < b ↔ a.toNat < b.toNat := Iff.rfl

/-- Totality of the code-unit string order. -/
theorem charListLe_total : ∀ (a b : List Char), (charListLe a b || charListLe b a) = true := by
  intro a
  induction a with
  | nil => intro b; rfl
  | cons x xs ih =>
    intro b
    cases b with
    | nil => rfl
    | cons y ys =>
      simp only [charListLe]
      by_cases h1 : x.val < y.val
      · rw [if_pos h1]
        rfl
      · by_cases h2 : y.val < x.val
        · rw [if_neg h1, if_pos h2]
          rw [if_pos h2]
          rfl
        · rw [if_neg h1, if_neg h2, if_neg h2, if_neg h1]
          exact ih ys

/-- Transitivity of the code-unit string order. -/
theorem charListLe_trans : ∀ (a b c : List Char),
    charListLe a b = true → charListLe b c = true → charListLe a c = true := by
  intro a
  induction a with
  | nil => intro b c _ _; rfl
  | cons x xs ih =>
    intro b c hab hbc
    cases b with
    | nil => exact absurd hab (by simp [charListLe])
    | cons y ys =>
      cases c with
      | nil => exact absurd hbc (by simp [charListLe])
      | cons z zs =>
        simp only [charListLe] at hab hbc ⊢
        split at hab
        · rename_i h1
          split at hbc
          · rename_i h2
            have h3 : x.val < z.val := uint32_lt_iff.mpr
              (Nat.lt_trans (uint32_lt_iff.mp h1) (uint32_lt_iff.mp h2))
            rw [if_pos h3]
          · split at hbc
            · simp at hbc
            · rename_i h2 h2'
              have h3 : x.val < z.val := by
                rw [uint32_lt_iff] at h1 h2 h2' ⊢
                omega
              rw [if_pos h3]
        · split at hab
          · simp at hab
          · rename_i h1 h1'
            split at hbc
            · rename_i h2
              have h3 : x.val < z.val := by
                rw [uint32_lt_iff] at h1 h1' h2 ⊢
                omega
              rw [if_pos h3]
            · split at hbc
              · simp at hbc
              · rename_i h2 h2'
                have h3 : ¬x.val < z.val := by
                  rw [uint32_lt_iff] at h1 h1' h2 h2' ⊢
                  omega
                have h4 : ¬z.val < x.val := by
                  rw [uint32_lt_iff] at h1 h1' h2 h2' ⊢
                  omega
                rw [if_neg h3, if_neg h4]
                exact ih ys zs hab hbc

/-- Totality of `strLe`. -/
theorem strLe_total (a b : String) : (strLe a b || strLe b a) = true :=
  charListLe_total a.data b.data

/-- Transitivity of `strLe`. -/
theorem strLe_trans (a b c : String) (h1 : strLe a b = true) (h2 : strLe b c = true) :
    strLe a c = true :=
  charListLe_trans a.data b.data c.data h1 h2

/-- Totality of the per-group name comparator. -/
theorem entryNameLe_total (a b : LowStockEntry) : (entryNameLe a b || entryNameLe b a) = true :=
  strLe_total a.product.name b.product.name

/-- Transitivity of the per-group name comparator. -/
theorem entryNameLe_trans (a b c : LowStockEntry) (h1 : entryNameLe a b = true)
    (h2 : entryNameLe b c = true) : entryNameLe a c = true :=
  strLe_trans a.product.name b.product.name c.product.name h1 h2

/-- The empty search term matches every product. -/
theorem matchesSearch_empty (brand : String) (p : Product) :
    matchesSearch "" brand p = true := rfl

/-- A successful lookup returns a stored pair. -/
theorem alGet_mem {κ β : Type} [DecidableEq κ] {k : κ} {v : β} :
    ∀ {l : List (κ × β)}, alGet k l = some v → (k, v) ∈ l := by
  intro l
  induction l with
  | nil => intro h; cases h
  | cons p t ih =>
    intro h
    simp only [alGet] at h
    split at h
    · rename_i hp
      injection h with h2
      subst hp
      subst h2
      exact List.mem_cons_self _ _
    · exact List.mem_cons_of_mem _ (ih h)

/-- A lookup fails exactly on the absent keys. -/
theorem alGet_none_iff {κ β : Type} [DecidableEq κ] {k : κ} :
    ∀ {l : List (κ × β)}, alGet k l = none ↔ k ∉ l.map Prod.fst := by
  intro l
  induction l with
  | nil => simp [alGet]
  | cons p t ih =>
    simp only [alGet, List.map_cons, List.mem_cons]
    split
    · rename_i hp
      constructor
      · intro h; cases h
      · intro h; exact absurd (Or.inl hp.symm) h
    · rename_i hp
      rw [ih]
      constructor
      · intro h hmem
        rcases hmem with he | hm
        · exact hp he.symm
        · exact h hm
      · intro h hm
        exact h (Or.inr hm)

/-- A successful lookup is unaffected by appending entries. -/
theorem alGet_append_left {κ β : Type} [DecidableEq κ] {k : κ} {v : β} :
    ∀ {l t : List (κ × β)}, alGet k l = some v → alGet k (l ++ t) = some v := by
  intro l t
  induction l with
  | nil => intro h; cases h
  | cons p l ih =>
    intro h
    rw [List.cons_append]
    simp only [alGet] at h ⊢
    by_cases hp : p.1 = k
    · rw [if_pos hp] at h ⊢
      exact h
    · rw [if_neg hp] at h ⊢
      exact ih h

/-- A failed lookup defers to the appended tail. -/
theorem alGet_append_of_none {κ β : Type} [DecidableEq κ] {k : κ} :
    ∀ {l : List (κ × β)} (t : List (κ × β)), alGet k l = none →
      alGet k (l ++ t) = alGet k t := by
  intro l
  induction l with
  | nil => intro t _; rfl
  | cons p l ih =>
    intro t h
    rw [List.cons_append]
    simp only [alGet] at h ⊢
    by_cases hp : p.1 = k
    · rw [if_pos hp] at h
      cases h
    · rw [if_neg hp] at h ⊢
      exact ih t h

/-- Updating a key makes it hold the new value. -/
theorem alGet_alSet_self {κ β : Type} [DecidableEq κ] (k : κ) (v : β) :
    ∀ (l : List (κ × β)), alGet k (alSet k v l) = some v := by
  intro l
  induction l with
  | nil => simp [alSet, alGet]
  | cons p t ih =>
    simp only [alSet]
    by_cases hp : p.1 = k
    · rw [if_pos hp]
      simp [alGet]
    · rw [if_neg hp]
      simp only [alGet]
      rw [if_neg hp]
      exact ih

/-- Updating one key leaves the other keys unchanged. -/
theorem alGet_alSet_ne {κ β : Type} [DecidableEq κ] {k k' : κ} (hne : k' ≠ k) (v : β) :
    ∀ (l : List (κ × β)), alGet k' (alSet k v l) = alGet k' l := by
  intro l
  induction l with
  | nil => simp [alSet, alGet, Ne.symm hne]
  | cons p t ih =>
    simp only [alSet]
    by_cases hp : p.1 = k
    · rw [if_pos hp]
      subst hp
      simp only [alGet]
      rw [if_neg (fun h => hne h.symm), if_neg (fun h => hne h.symm)]
    · rw [if_neg hp]
      simp only [alGet]
      by_cases hq : p.1 = k'
      · rw [if_pos hq, if_pos hq]
      · rw [if_neg hq, if_neg hq]
        exact ih

/-- Every pair of an updated list is the updated pair or an original pair. -/
theorem mem_alSet {κ β : Type} [DecidableEq κ] {k : κ} {v : β} {x : κ × β} :
    ∀ {l : List (κ × β)}, x ∈ alSet k v l → x = (k, v) ∨ x ∈ l := by
  intro l
  induction l with
  | nil =>
    intro h
    simp only [alSet] at h
    exact Or.inl (List.mem_singleton.mp h)
  | cons p t ih =>
    intro h
    simp only [alSet] at h
    split at h
    · rcases List.mem_cons.mp h with he | hm
      · exact Or.inl he
      · exact Or.inr (List.mem_cons_of_mem _ hm)
    · rcases List.mem_cons.mp h with he | hm
      · exact Or.inr (he ▸ List.mem_cons_self _ _)
      · rcases ih hm with he2 | hm2
        · exact Or.inl he2
        · exact Or.inr (List.mem_cons_of_mem _ hm2)

/-- Updating a present key preserves the key list. -/
theorem alSet_keys_of_mem {κ β : Type} [DecidableEq κ] {k : κ} {v : β} :
    ∀ {l : List (κ × β)}, k ∈ l.map Prod.fst →
      (alSet k v l).map Prod.fst = l.map Prod.fst := by
  intro l
  induction l with
  | nil => intro h; cases h
  | cons p t ih =>
    intro h
    simp only [alSet]
    by_cases hp : p.1 = k
    · rw [if_pos hp]
      simp only [List.map_cons]
      rw [hp]
    · rw [if_neg hp]
      simp only [List.map_cons] at h ⊢
      rcases List.mem_cons.mp h with he | hm
      · exact absurd he.symm hp
      · rw [ih hm]

/-- Lookup commutes with mapping the stored values. -/
theorem alGet_map_value {κ β γ : Type} [DecidableEq κ] (f : β → γ) (k : κ) :
    ∀ (l : List (κ × β)),
      alGet k (l.map (fun kl => (kl.1, f kl.2))) = (alGet k l).map f := by
  intro l
  induction l with
  | nil => rfl
  | cons p t ih =>
    simp only [List.map_cons, alGet]
    by_cases hp : p.1 = k
    · rw [if_pos hp, if_pos hp]
      rfl
    · rw [if_neg hp, if_neg hp]
      exact ih

/-- A fold over a flattened list is the nested fold. -/
theorem foldl_flatMap {α β γ : Type _} (f : γ → α → γ) (h : β → List α) :
    ∀ (l : List β) (init : γ),
      (l.flatMap h).foldl f init = l.foldl (fun acc b => (h b).foldl f acc) init := by
  intro l
  induction l with
  | nil => intro init; rfl
  | cons b l ih =>
    intro init
    simp only [List.flatMap_cons, List.foldl_append, List.foldl_cons]
    rw [ih]

/-- The nested grouping loops are the fold of `lowStockStep` over the scanned
triples. -/
theorem lowStockGroupedRaw_eq_foldl (inv : Inventory) (apos : List String) (st : String) :
    lowStockGroupedRaw inv apos st
      = (lowStockTriples inv apos).foldl
          (fun g t => lowStockStep st t.1 g t.2.1 t.2.2) [] := by
  unfold lowStockGroupedRaw lowStockTriples
  simp only [foldl_flatMap, List.foldl_map]

/-- Membership in the scanned triples, spelled through the inventory. -/
theorem mem_lowStockTriples {inv : Inventory} {apos : List String}
    {pos brand : String} {p : Product} :
    (pos, brand, p) ∈ lowStockTriples inv apos
      ↔ pos ∈ apos ∧ ∃ bp ∈ (alGet pos inv).getD [], bp.1 = brand ∧ p ∈ bp.2 := by
  unfold lowStockTriples
  constructor
  · intro h
    obtain ⟨pos', hpos', rest⟩ := List.mem_flatMap.mp h
    obtain ⟨bp, hbp, hmap⟩ := List.mem_flatMap.mp rest
    obtain ⟨p', hp', heq⟩ := List.mem_map.mp hmap
    injection heq with ha hb
    injection hb with hb1 hb2
    exact ⟨ha ▸ hpos', bp, ha ▸ hbp, hb1, hb2 ▸ hp'⟩
  · rintro ⟨hpos, bp, hbp, hb, hp⟩
    exact List.mem_flatMap.mpr ⟨pos, hpos,
      List.mem_flatMap.mpr ⟨bp, hbp, List.mem_map.mpr ⟨p, hp, by rw [hb]⟩⟩⟩

/-- The grouping step, with its brand-key binding named. -/
theorem lowStockStep_eq (st pos brand : String) (p : Product)
    (g : List (String × List LowStockEntry)) :
    lowStockStep st pos g brand p =
      if isLowStock p && matchesSearch st brand p then
        match alGet (brandKeyOf brand) g with
        | none => g ++ [(brandKeyOf brand, [⟨p, pos⟩])]
        | some l =>
          if l.any (fun e => e.product.barcode == p.barcode && e.pointOfSale == pos) then g
          else alSet (brandKeyOf brand) (l ++ [⟨p, pos⟩]) g
      else g := rfl

/-- One grouping step preserves the grouping invariant. -/
theorem lowStockStep_inv (st pos brand : String) (p : Product)
    (T : List (String × String × Product)) (hT : (pos, brand, p) ∈ T)
    (g : List (String × List LowStockEntry)) (h : lowStockInv T g) :
    lowStockInv T (lowStockStep st pos g brand p) := by
  obtain ⟨hsound, hdedup, hkeys⟩ := h
  rw [lowStockStep_eq]
  split
  · rename_i hcond
    have hlow : isLowStock p = true := by
      simp only [Bool.and_eq_true] at hcond
      exact hcond.1
    split
    · rename_i heq
      have hnk : brandKeyOf brand ∉ g.map Prod.fst := alGet_none_iff.mp heq
      refine ⟨?_, ?_, ?_⟩
      · intro bl hbl e he
        rcases List.mem_append.mp hbl with hg | hnew
        · exact hsound bl hg e he
        · rw [List.mem_singleton.mp hnew] at he ⊢
          rw [List.mem_singleton.mp he]
          exact ⟨hlow, (pos, brand, p), hT, rfl, rfl, rfl⟩
      · intro bl hbl
        rcases List.mem_append.mp hbl with hg | hnew
        · exact hdedup bl hg
        · rw [List.mem_singleton.mp hnew]
          exact List.pairwise_singleton _ _
      · rw [List.map_append]
        refine List.Nodup.append hkeys (List.nodup_singleton _) ?_
        intro x hx hxb
        simp only [List.map_cons, List.map_nil, List.mem_singleton] at hxb
        rw [hxb] at hx
        exact hnk hx
    · rename_i l heq
      split
      · exact ⟨hsound, hdedup, hkeys⟩
      · rename_i hany
        have hblg : (brandKeyOf brand, l) ∈ g := alGet_mem heq
        have hnew_entries : ∀ e ∈ l, entryDistinct e (⟨p, pos⟩ : LowStockEntry) := by
          intro e he
          intro hcol
          apply hany
          refine List.any_eq_true.mpr ⟨e, he, ?_⟩
          rw [Bool.and_eq_true, beq_iff_eq, beq_iff_eq]
          exact hcol
        refine ⟨?_, ?_, ?_⟩
        · intro bl hbl e he
          rcases mem_alSet hbl with hrfl | hg
          · rw [hrfl] at he ⊢
            rcases List.mem_append.mp he with hl | hnew
            · exact hsound _ hblg e hl
            · rw [List.mem_singleton.mp hnew]
              exact ⟨hlow, (pos, brand, p), hT, rfl, rfl, rfl⟩
          · exact hsound bl hg e he
        · intro bl hbl
          rcases mem_alSet hbl with hrfl | hg
          · rw [hrfl]
            refine List.pairwise_append.mpr
              ⟨hdedup _ hblg, List.pairwise_singleton _ _, ?_⟩
            intro a ha b hb
            rw [List.mem_singleton.mp hb]
            exact hnew_entries a ha
          · exact hdedup bl hg
        · rw [alSet_keys_of_mem (List.mem_map_of_mem Prod.fst hblg)]
          exact hkeys
  · exact ⟨hsound, hdedup, hkeys⟩

/-- One grouping step keeps every already represented (barcode, point of
sale) pair represented. -/
theorem lowStockStep_mono (st pos brand : String) (p : Product)
    (g : List (String × List LowStockEntry)) {b bar ps : String}
    (h : hasEntryFor g b bar ps) : hasEntryFor (lowStockStep st pos g brand p) b bar ps := by
  obtain ⟨l0, hget0, e0, he0, hbar, hpos⟩ := h
  rw [lowStockStep_eq]
  split
  · split
    · rename_i heq
      exact ⟨l0, alGet_append_left hget0, e0, he0, hbar, hpos⟩
    · rename_i l heq
      split
      · exact ⟨l0, hget0, e0, he0, hbar, hpos⟩
      · by_cases hb : b = brandKeyOf brand
        · subst hb
          rw [hget0] at heq
          injection heq with hl
          exact ⟨l ++ [⟨p, pos⟩], alGet_alSet_self _ _ _, e0,
            List.mem_append_left _ (hl ▸ he0), hbar, hpos⟩
        · exact ⟨l0, by rw [alGet_alSet_ne hb]; exact hget0, e0, he0, hbar, hpos⟩
  · exact ⟨l0, hget0, e0, he0, hbar, hpos⟩

/-- With the empty search term, a low-stock product becomes represented in
its brand group after its grouping step. -/
theorem lowStockStep_establish (pos brand : String) (p : Product)
    (g : List (String × List LowStockEntry)) (hlow : isLowStock p = true) :
    hasEntryFor (lowStockStep "" pos g brand p) (brandKeyOf brand) p.barcode pos := by
  unfold hasEntryFor
  rw [lowStockStep_eq]
  rw [if_pos (by rw [hlow, matchesSearch_empty]; rfl)]
  split
  · rename_i heq
    refine ⟨[⟨p, pos⟩], ?_, ⟨p, pos⟩, List.mem_singleton_self _, rfl, rfl⟩
    rw [alGet_append_of_none _ heq]
    simp [alGet]
  · rename_i l heq
    split
    · rename_i hany
      simp only [List.any_eq_true, Bool.and_eq_true, beq_iff_eq] at hany
      obtain ⟨e, he, hbar, hpos⟩ := hany
      exact ⟨l, heq, e, he, hbar, hpos⟩
    · exact ⟨l ++ [⟨p, pos⟩], alGet_alSet_self _ _ _, ⟨p, pos⟩,
        List.mem_append_right _ (List.mem_singleton_self _), rfl, rfl⟩

/-- The grouping fold preserves the grouping invariant. -/
theorem lowStock_foldl_inv (st : String) (T : List (String × String × Product)) :
    ∀ (ts : List (String × String × Product)) (g : List (String × List LowStockEntry)),
      (∀ t ∈ ts, t ∈ T) → lowStockInv T g →
      lowStockInv T (ts.foldl (fun g t => lowStockStep st t.1 g t.2.1 t.2.2) g) := by
  intro ts
  induction ts with
  | nil => intro g _ h; exact h
  | cons t ts ih =>
    intro g hsub h
    rw [List.foldl_cons]
    exact ih _ (fun t' ht' => hsub t' (List.mem_cons_of_mem _ ht'))
      (lowStockStep_inv st t.1 t.2.1 t.2.2 T (hsub t (List.mem_cons_self _ _)) g h)

/-- The grouping fold keeps every represented (barcode, point of sale) pair
represented. -/
theorem lowStock_foldl_mono (st : String) :
    ∀ (ts : List (String × String × Product)) (g : List (String × List LowStockEntry))
      {b bar ps : String}, hasEntryFor g b bar ps →
      hasEntryFor (ts.foldl (fun g t => lowStockStep st t.1 g t.2.1 t.2.2) g) b bar ps := by
  intro ts
  induction ts with
  | nil => intro g _ _ _ h; exact h
  | cons t ts ih =>
    intro g b bar ps h
    rw [List.foldl_cons]
    exact ih _ (lowStockStep_mono st t.1 t.2.1 t.2.2 g h)

/-- With the empty search term, the grouping fold represents every scanned
low-stock product in its brand group. -/
theorem lowStock_foldl_complete :
    ∀ (ts : List (String × String × Product)) (g : List (String × List LowStockEntry))
      (t : String × String × Product), t ∈ ts → isLowStock t.2.2 = true →
      hasEntryFor (ts.foldl (fun g t => lowStockStep "" t.1 g t.2.1 t.2.2) g)
        (brandKeyOf t.2.1) t.2.2.barcode t.1 := by
  intro ts
  induction ts with
  | nil => intro g t ht _; cases ht
  | cons t0 ts ih =>
    intro g t ht hlow
    rw [List.foldl_cons]
    rcases List.mem_cons.mp ht with rfl | hmem
    · exact lowStock_foldl_mono "" ts _ (lowStockStep_establish t.1 t.2.1 t.2.2 g hlow)
    · exact ih _ t hmem hlow

/-- Membership in the final listing, spelled through the sorted groups. -/
theorem lowStock_mem_filterMap_iff (gs : List (String × List LowStockEntry))
    (ks : List String) (bl : String × List LowStockEntry) :
    bl ∈ ks.filterMap (fun k => (alGet k gs).map (fun l => (k, l)))
      ↔ bl.1 ∈ ks ∧ alGet bl.1 gs = some bl.2 := by
  constructor
  · intro h
    obtain ⟨k, hk, hsome⟩ := List.mem_filterMap.mp h
    cases hget : alGet k gs with
    | none =>
      rw [hget] at hsome
      cases hsome
    | some l =>
      rw [hget] at hsome
      simp only [Option.map_some'] at hsome
      injection hsome with hbl
      rw [← hbl]
      exact ⟨hk, hget⟩
  · intro ⟨h1, h2⟩
    refine List.mem_filterMap.mpr ⟨bl.1, h1, ?_⟩
    rw [h2]
    rfl

/-- The emitted brand keys form a sublist of the queried key order. -/
theorem lowStock_filterMap_keys_sublist (gs : List (String × List LowStockEntry)) :
    ∀ ks : List String,
      ((ks.filterMap (fun k => (alGet k gs).map (fun l => (k, l)))).map Prod.fst).Sublist ks := by
  intro ks
  induction ks with
  | nil => simp
  | cons k ks ih =>
    rw [List.filterMap_cons]
    cases h : alGet k gs with
    | none =>
      simp only [Option.map_none']
      exact List.Sublist.cons k ih
    | some l =>
      simp only [Option.map_some', List.map_cons]
      exact List.Sublist.cons₂ k ih

/-- C10 (amended): with the inventory loaded, at least one accessible point
of sale, and no search filter, the low-stock listing contains exactly the
low-stock products (quantity above 0 and at most the product's positive
`lowStockThreshold`, the global default 5 otherwise) of the accessible points
of sale, grouped under their brand key: every listed entry is such a product
and every such product is represented by barcode and point of sale in its
brand group; each brand group holds at most one entry per (barcode, point of
sale) pair — the deduplication is per brand group, not global — brand keys
are distinct and sorted, and each group is sorted by product name. -/
theorem low_stock_listing (u : Option User) (inv : Inventory)
    (hacc : getPointsOfSaleForUser u inv ≠ []) :
    (∀ bl ∈ lowStockProductsByBrand true u inv "", ∀ e ∈ bl.2,
        isLowStock e.product = true
        ∧ ∃ pos ∈ getPointsOfSaleForUser u inv, e.pointOfSale = pos
          ∧ ∃ bp ∈ (alGet pos inv).getD [], e.product ∈ bp.2 ∧ bl.1 = brandKeyOf bp.1)
    ∧ (∀ pos ∈ getPointsOfSaleForUser u inv, ∀ bp ∈ (alGet pos inv).getD [],
        ∀ p ∈ bp.2, isLowStock p = true →
          ∃ bl ∈ lowStockProductsByBrand true u inv "", bl.1 = brandKeyOf bp.1
            ∧ ∃ e ∈ bl.2, e.product.barcode = p.barcode ∧ e.pointOfSale = pos)
    ∧ (∀ bl ∈ lowStockProductsByBrand true u inv "", bl.2.Pairwise entryDistinct)
    ∧ ((lowStockProductsByBrand true u inv "").map Prod.fst).Nodup
    ∧ ((lowStockProductsByBrand true u inv "").map Prod.fst).Pairwise
        (fun a b => strLe a b = true)
    ∧ (∀ bl ∈ lowStockProductsByBrand true u inv "", bl.2.Pairwise
        (fun a b => entryNameLe a b = true)) := by
  have hguard : ¬(true = false ∨ getPointsOfSaleForUser u inv = []) := by
    rintro (h | h)
    · cases h
    · exact hacc h
  have hout : lowStockProductsByBrand true u inv ""
      = (sortStable strLe
          (((lowStockGroupedRaw inv (getPointsOfSaleForUser u inv) "").map
            (fun kl => (kl.1, sortStable entryNameLe kl.2))).map Prod.fst)).filterMap
          (fun k => (alGet k ((lowStockGroupedRaw inv (getPointsOfSaleForUser u inv) "").map
            (fun kl => (kl.1, sortStable entryNameLe kl.2)))).map (fun l => (k, l))) := by
    simp only [lowStockProductsByBrand]
    rw [if_neg hguard]
  rw [hout]
  set apos := getPointsOfSaleForUser u inv with hapos
  set grouped := lowStockGroupedRaw inv apos "" with hgrouped
  set sg := grouped.map (fun kl => (kl.1, sortStable entryNameLe kl.2)) with hsg
  set ks := sortStable strLe (sg.map Prod.fst) with hks
  have hinv : lowStockInv (lowStockTriples inv apos) grouped := by
    rw [hgrouped, lowStockGroupedRaw_eq_foldl]
    exact lowStock_foldl_inv "" (lowStockTriples inv apos) (lowStockTriples inv apos) []
      (fun t ht => ht) ⟨by simp, by simp, List.nodup_nil⟩
  obtain ⟨hsound, hdedup, hkeysnd⟩ := hinv
  have hsgkeys : sg.map Prod.fst = grouped.map Prod.fst := by
    rw [hsg, List.map_map]
    apply List.map_congr_left
    intro kl _
    rfl
  have hsgnd : (sg.map Prod.fst).Nodup := by
    rw [hsgkeys]
    exact hkeysnd
  have hksnd : ks.Nodup := by
    rw [hks]
    exact ((sortStable_perm strLe (sg.map Prod.fst)).nodup_iff).mpr hsgnd
  refine ⟨?_, ?_, ?_, ?_, ?_, ?_⟩
  · intro bl hbl e he
    obtain ⟨hk, hget⟩ := (lowStock_mem_filterMap_iff sg ks bl).mp hbl
    have hmem_sg : (bl.1, bl.2) ∈ sg := alGet_mem hget
    rw [hsg] at hmem_sg
    obtain ⟨kl, hkl, heq⟩ := List.mem_map.mp hmem_sg
    injection heq with h1 h2
    rw [← h2] at he
    have he2 := mem_sortStable.mp he
    obtain ⟨hlow, t, ht, hpos, hprod, hkey⟩ := hsound kl hkl e he2
    obtain ⟨hpos_in, bp, hbp, hbrand, hp⟩ := mem_lowStockTriples.mp ht
    refine ⟨hlow, t.1, hpos_in, hpos, bp, hbp, ?_, ?_⟩
    · rw [hprod]
      exact hp
    · rw [← h1, hkey, hbrand]
  · intro pos hpos bp hbp p hp hlow
    have ht : (pos, bp.1, p) ∈ lowStockTriples inv apos :=
      mem_lowStockTriples.mpr ⟨hpos, bp, hbp, rfl, hp⟩
    have hhas : hasEntryFor grouped (brandKeyOf bp.1) p.barcode pos := by
      rw [hgrouped, lowStockGroupedRaw_eq_foldl]
      exact lowStock_foldl_complete _ [] (pos, bp.1, p) ht hlow
    obtain ⟨l, hget, e, he, hbar, hps⟩ := hhas
    have hget_sg : alGet (brandKeyOf bp.1) sg = some (sortStable entryNameLe l) := by
      rw [hsg, alGet_map_value]
      rw [hget]
      rfl
    have hk_in : brandKeyOf bp.1 ∈ ks := by
      rw [hks, mem_sortStable, hsgkeys]
      exact List.mem_map_of_mem Prod.fst (alGet_mem hget)
    refine ⟨(brandKeyOf bp.1, sortStable entryNameLe l), ?_, rfl, e,
      mem_sortStable.mpr he, hbar, hps⟩
    exact (lowStock_mem_filterMap_iff sg ks _).mpr ⟨hk_in, hget_sg⟩
  · intro bl hbl
    obtain ⟨hk, hget⟩ := (lowStock_mem_filterMap_iff sg ks bl).mp hbl
    have hmem_sg : (bl.1, bl.2) ∈ sg := alGet_mem hget
    rw [hsg] at hmem_sg
    obtain ⟨kl, hkl, heq⟩ := List.mem_map.mp hmem_sg
    injection heq with h1 h2
    rw [← h2]
    have hsymm : ∀ {a b : LowStockEntry}, entryDistinct a b → entryDistinct b a := by
      intro a b h hcol
      exact h ⟨hcol.1.symm, hcol.2.symm⟩
    exact ((sortStable_perm entryNameLe kl.2).pairwise_iff hsymm).mpr (hdedup kl hkl)
  · exact List.Pairwise.sublist (lowStock_filterMap_keys_sublist sg ks) hksnd
  · refine List.Pairwise.sublist (lowStock_filterMap_keys_sublist sg ks) ?_
    rw [hks]
    exact pairwise_sortStable strLe_trans strLe_total (sg.map Prod.fst)
  · intro bl hbl
    obtain ⟨hk, hget⟩ := (lowStock_mem_filterMap_iff sg ks bl).mp hbl
    have hmem_sg : (bl.1, bl.2) ∈ sg := alGet_mem hget
    rw [hsg] at hmem_sg
    obtain ⟨kl, hkl, heq⟩ := List.mem_map.mp hmem_sg
    injection heq with h1 h2
    rw [← h2]
    exact pairwise_sortStable entryNameLe_trans entryNameLe_total kl.2

/-- C10 witness: in the concrete one-store inventory, the low-stock product
`pX` of BrandA is represented in the BrandA group of the listing. -/
theorem low_stock_listing_witness :
    ∃ bl ∈ lowStockProductsByBrand true (some u10) inv10 "",
      bl.1 = brandKeyOf "BrandA"
      ∧ ∃ e ∈ bl.2, e.product.barcode = pX.barcode ∧ e.pointOfSale = "Main Store" :=
  (low_stock_listing (some u10) inv10 (by decide)).2.1 "Main Store" (by decide)
    ("BrandA", [pX]) (by decide) pX (by decide) (by decide)

/-- C10 counterexample to the original claim: the same (barcode, point of
sale) pair appears twice in the listing when two brands carry products with
the same barcode at the same store — deduplication is only per brand group. -/
theorem low_stock_duplicate_counterexample :
    lowStockProductsByBrand true (some u10) inv10 ""
      = [("BrandA", [⟨pX, "Main Store"⟩]), ("BrandB", [⟨pY, "Main Store"⟩])]
    ∧ ¬((lowStockProductsByBrand true (some u10) inv10 "").flatMap Prod.snd).Pairwise
        entryDistinct := by
  decide

end SRC1
